import Mathlib

/-!
Verification of `chat.py` (TwitchChatStream): a shallow embedding of the
regex-based IRC line parser, the outbound rate limiter, the non-blocking
receive loop, and the connect routine, together with proofs of the
specification's claims about them.

Python regexes are embedded as values of a small regex datatype `RE`
together with an executable backtracking matcher `reRun` that follows
Python `re` semantics: leftmost alternation preference, greedy `+`/`*`
trying longer matches first, lazy `*?` trying shorter matches first,
`$` matching at the end of the input or just before a final newline,
`re.match` anchoring at position 0 as a prefix match, and `re.findall`
scanning positions left to right.
-/

namespace TwitchChat

/-- Character class `[a-zA-Z0-9_]` of the Python regexes. -/
def wordChar (c : Char) : Bool := c.isAlphanum || c = '_'

/-- Character class of `.` in a Python regex (anything but a newline). -/
def dotChar (c : Char) : Bool := c != '\n'

/-- Regex abstract syntax: the fragment used by `chat.py`.
`grp` is a capture group (each regex in `chat.py` has at most one),
`starCG p` is a greedy star over a single character class (`[...]​*`,
`.*`), `starCL p` a lazy one (`.*?`), `eol` is `$`.  Every starred
subexpression occurring in `chat.py`'s regexes is a single character
class, so class-stars suffice for a faithful transcription. -/
inductive RE where
  | eps
  | ch (c : Char)
  | cls (p : Char → Bool)
  | seq (a b : RE)
  | alt (a b : RE)
  | starCG (p : Char → Bool)
  | starCL (p : Char → Bool)
  | grp (r : RE)
  | eol

/-- First-success choice on `Option`, the backtracking preference order. -/
def oElse : Option (Option (List Char)) → Option (Option (List Char)) →
    Option (Option (List Char))
  | some v, _ => some v
  | none, b => b

/-- Strip a literal prefix: `some` of the remainder when `cs` is a
prefix of `s`, else `none`. -/
def dropPfx : List Char → List Char → Option (List Char)
  | [], s => some s
  | _ :: _, [] => none
  | c :: cs, c' :: s => if c' = c then dropPfx cs s else none

/-- Does `s` start with the literal `m`? -/
def startsWithB (m s : List Char) : Bool := (dropPfx m s).isSome

/-- Does the literal `m` occur anywhere inside `s`? -/
def segInB (m : List Char) : List Char → Bool
  | [] => startsWithB m []
  | c :: t => startsWithB m (c :: t) || segInB m t

/-- Holds when `w` is a suffix of `l`. -/
def sfxOf (w l : List Char) : Prop := ∃ a, l = a ++ w

/-- Behaviour of the greedy star `p*` over a single character class in a
backtracking matcher: try consuming one more `p`-character first
(preferring the longest match), falling back to the continuation `k` at
the current position. -/
def gScan (p : Char → Bool)
    (k : List Char → Option (List Char) → Option (Option (List Char)))
    (cap : Option (List Char)) : List Char → Option (Option (List Char))
  | [] => k [] cap
  | c :: t =>
      if p c then oElse (gScan p k cap t) (k (c :: t) cap) else k (c :: t) cap

/-- Behaviour of the lazy star `p*?` over a single character class in a
backtracking matcher: try the continuation `k` at the current position
first (preferring the shortest match), extending by one `p`-character on
failure. -/
def lScan (p : Char → Bool)
    (k : List Char → Option (List Char) → Option (Option (List Char)))
    (cap : Option (List Char)) : List Char → Option (Option (List Char))
  | [] => k [] cap
  | c :: t =>
      oElse (k (c :: t) cap) (if p c then lScan p k cap t else none)

/-- Backtracking matcher in continuation-passing style, following Python
`re` semantics: leftmost alternation preference, greedy stars trying
longer matches first, lazy stars shorter first.  `cap` is the value of
the capture group seen so far, `k` is the continuation run on the
remaining input. -/
def reRun : RE → List Char → Option (List Char) →
    (List Char → Option (List Char) → Option (Option (List Char))) →
    Option (Option (List Char))
  | RE.eps, s, cap, k => k s cap
  | RE.ch _, [], _, _ => none
  | RE.ch c, c' :: t, cap, k => if c' = c then k t cap else none
  | RE.cls _, [], _, _ => none
  | RE.cls p, c' :: t, cap, k => if p c' then k t cap else none
  | RE.seq a b, s, cap, k =>
      reRun a s cap (fun s' cap' => reRun b s' cap' k)
  | RE.alt a b, s, cap, k =>
      oElse (reRun a s cap k) (reRun b s cap k)
  | RE.starCG p, s, cap, k => gScan p k cap s
  | RE.starCL p, s, cap, k => lScan p k cap s
  | RE.grp r, s, cap, k =>
      reRun r s cap
        (fun s' _ => k s' (some (s.take (s.length - s'.length))))
  | RE.eol, s, cap, k =>
      if s = [] ∨ s = ['\n'] then k s cap else none

/-- Literal regex for a list of characters. -/
def litL : List Char → RE
  | [] => RE.eps
  | c :: cs => RE.seq (RE.ch c) (litL cs)

/-- Literal string regex (a sequence of literal characters). -/
def litS (s : String) : RE := litL s.data

/-- Plus `p+` : one occurrence of the class, then greedily more. -/
def plusC (p : Char → Bool) : RE := RE.seq (RE.cls p) (RE.starCG p)

/-- Top-level continuation: `re.match` succeeds on any remainder
(prefix matching), reporting the capture group. -/
def ktop : List Char → Option (List Char) → Option (Option (List Char)) :=
  fun _ cap => some cap

/-- Python `re.match(pattern, s)`: anchored at position 0, prefix match.
Returns `some cap` on a match (`cap` the capture group). -/
def reMatch (r : RE) (s : List Char) : Option (Option (List Char)) :=
  reRun r s none ktop

/-- Python `re.search` / first result of `re.findall`: try each start
position left to right. -/
def reSearch (r : RE) : List Char → Option (Option (List Char))
  | [] => reMatch r []
  | c :: t => oElse (reMatch r (c :: t)) (reSearch r t)

/-! The five regexes of `chat.py`, transcribed literally. -/

/-- Pattern `^PING :(tmi\.twitch\.tv|\.testserver\.local)$` from `_check_has_ping`. -/
def pingRE : RE :=
  RE.seq (litS "PING :")
    (RE.seq (RE.grp (RE.alt (litS "tmi.twitch.tv") (litS ".testserver.local")))
      RE.eol)

/-- Pattern `^:(testserver\.local|tmi\.twitch\.tv) NOTICE \* :Login unsuccessful\r\n$`
from `_twitch_logged_in`. -/
def loginFailRE : RE :=
  RE.seq (RE.ch ':')
    (RE.seq (RE.grp (RE.alt (litS "testserver.local") (litS "tmi.twitch.tv")))
      (RE.seq (litS " NOTICE * :Login unsuccessful\r\n") RE.eol))

/-- Tail ` :.+$` of the message-check pattern, starting at the channel:
`[a-zA-Z0-9_]+ :.+$`. -/
def msgRE4 : RE :=
  RE.seq (plusC wordChar) (RE.seq (litS " :") (RE.seq (plusC dotChar) RE.eol))

/-- Pattern ` PRIVMSG #[a-zA-Z0-9_]+ :.+$`. -/
def msgRE3 : RE := RE.seq (litS " PRIVMSG #") msgRE4

/-- Pattern `(\.tmi\.twitch\.tv|\.testserver\.local) PRIVMSG #[a-zA-Z0-9_]+ :.+$`. -/
def msgRE2 : RE :=
  RE.seq (RE.grp (RE.alt (litS ".tmi.twitch.tv") (litS ".testserver.local")))
    msgRE3

/-- Pattern `[a-zA-Z0-9_]+(\.tmi\.twitch\.tv|\.testserver\.local) ...` (host on). -/
def msgREhost : RE := RE.seq (plusC wordChar) msgRE2

/-- Pattern `@[a-zA-Z0-9_]+...` (at-sign on). -/
def msgREat : RE := RE.seq (RE.ch '@') msgREhost

/-- Pattern `[a-zA-Z0-9_]+@...` (user on). -/
def msgREuser : RE := RE.seq (plusC wordChar) msgREat

/-- Pattern `\![a-zA-Z0-9_]+@...` (bang on). -/
def msgREexcl : RE := RE.seq (RE.ch '!') msgREuser

/-- Pattern `[a-zA-Z0-9_]+\!...` (nick on). -/
def msgREnick : RE := RE.seq (plusC wordChar) msgREexcl

/-- Pattern `^:[a-zA-Z0-9_]+\![a-zA-Z0-9_]+@[a-zA-Z0-9_]+(\.tmi\.twitch\.tv|\.testserver\.local) PRIVMSG #[a-zA-Z0-9_]+ :.+$`
from `_check_has_message`, assembled from the pieces above. -/
def messageRE : RE := RE.seq (RE.ch ':') msgREnick

/-- Pattern `(.*?) :` — the lazy channel group of the channel pattern. -/
def chanRE3 : RE := RE.seq (RE.grp (RE.starCL dotChar)) (litS " :")

/-- Pattern ` PRIVMSG (.*?) :`. -/
def chanRE2 : RE := RE.seq (litS " PRIVMSG ") chanRE3

/-- Pattern `.+ PRIVMSG (.*?) :`. -/
def chanREdot2 : RE := RE.seq (plusC dotChar) chanRE2

/-- Pattern `[a-zA-Z0-9_]+.+ PRIVMSG (.*?) :` (host on). -/
def chanREhost : RE := RE.seq (plusC wordChar) chanREdot2

/-- Pattern `@[a-zA-Z0-9_]+.+ ...` (at-sign on). -/
def chanREat : RE := RE.seq (RE.ch '@') chanREhost

/-- Pattern `[a-zA-Z0-9_]+@...` (user on). -/
def chanREuser : RE := RE.seq (plusC wordChar) chanREat

/-- Pattern `\![a-zA-Z0-9_]+@...` (bang on). -/
def chanREexcl : RE := RE.seq (RE.ch '!') chanREuser

/-- Pattern `.+\!...` (leading dot-run on). -/
def chanREdot1 : RE := RE.seq (plusC dotChar) chanREexcl

/-- Pattern `^:.+\![a-zA-Z0-9_]+@[a-zA-Z0-9_]+.+ PRIVMSG (.*?) :` — the channel
extraction pattern of `_parse_message`, assembled from the pieces above. -/
def channelRE : RE := RE.seq (RE.ch ':') chanREdot1

/-- Pattern `^:([a-zA-Z0-9_]+)\!` — the username extraction pattern of
`_parse_message`. -/
def usernameRE : RE :=
  RE.seq (RE.ch ':') (RE.seq (RE.grp (plusC wordChar)) (RE.ch '!'))

/-- Pattern `(.+)` — the trailing text group of the text pattern. -/
def textRE3 : RE := RE.grp (plusC dotChar)

/-- Pattern ` :(.+)`. -/
def textRE2 : RE := RE.seq (litS " :") textRE3

/-- Pattern `[a-zA-Z0-9_]+ :(.+)` (channel word on). -/
def textRE1 : RE := RE.seq (plusC wordChar) textRE2

/-- Pattern `PRIVMSG #[a-zA-Z0-9_]+ :(.+)` — the message text extraction pattern
of `_parse_message` (unanchored, used with `re.findall`), assembled from
the pieces above. -/
def textRE : RE := RE.seq (litS "PRIVMSG #") textRE1

/-- Source `TwitchChatStream._check_has_ping`. -/
def check_has_ping (data : String) : Bool := (reMatch pingRE data.data).isSome

/-- Source `TwitchChatStream._check_has_message`. -/
def check_has_message (data : String) : Bool := (reMatch messageRE data.data).isSome

/-- Source `TwitchChatStream._twitch_logged_in`: `True` unless the reply matches
the login-unsuccessful notice. -/
def twitch_logged_in (data : String) : Bool := !(reMatch loginFailRE data.data).isSome

/-- Python `re.findall(r, s)[0]` for an anchored pattern (equivalent to a match at
position 0): `none` models the `IndexError` when there is no match. -/
def matchCap (r : RE) (s : String) : Option String :=
  match reMatch r s.data with
  | some (some c) => some (String.mk c)
  | _ => none

/-- Python `re.findall(r, s)[0]` for an unanchored pattern: the leftmost match's
capture group; `none` models the `IndexError` when there is no match. -/
def findCap (r : RE) (s : String) : Option String :=
  match reSearch r s.data with
  | some (some c) => some (String.mk c)
  | _ => none

/-! ## Data model: chat messages, Python exceptions -/

/-- The dict returned by `_parse_message` for a chat line. -/
structure ChatMsg where
  channel : String
  username : String
  message : String
deriving DecidableEq, Repr

/-- Python exceptions that can escape the modelled code paths. -/
inductive PyError where
  /-- Python `AttributeError`: `_parse_message` calls `self.send_pong()`, but the
  class only defines `_send_pong`. -/
  | attrError
  /-- Python `IndexError`: `re.findall(...)[0]` on an empty result list. -/
  | indexError
  /-- an exception escaping from `self.connect()` during recovery -/
  | connectError
deriving DecidableEq, Repr

instance {ε α : Type} [DecidableEq ε] [DecidableEq α] :
    DecidableEq (Except ε α) := fun x y =>
  match x, y with
  | Except.ok a, Except.ok b =>
    if h : a = b then Decidable.isTrue (by rw [h])
    else Decidable.isFalse (fun he => by cases he; exact h rfl)
  | Except.ok _, Except.error _ => Decidable.isFalse (fun he => by cases he)
  | Except.error _, Except.ok _ => Decidable.isFalse (fun he => by cases he)
  | Except.error e, Except.error f =>
    if h : e = f then Decidable.isTrue (by rw [h])
    else Decidable.isFalse (fun he => by cases he; exact h rfl)

/-- Source `TwitchChatStream._parse_message`.  On a ping line the source executes
`self.send_pong()`; the class defines `_send_pong` but no `send_pong`, so
this raises `AttributeError` (modelled as `Except.error .attrError`).
Otherwise, on a line matching `_check_has_message`, the three
`re.findall(...)[0]` extractions build the dict; on any other line the
result is `None`. -/
def parse_message (data : String) : Except PyError (Option ChatMsg) :=
  if check_has_ping data then
    Except.error PyError.attrError
  else if check_has_message data then
    match matchCap channelRE data, matchCap usernameRE data, findCap textRE data with
    | some ch, some un, some tx => Except.ok (some ⟨ch, un, tx⟩)
    | _, _, _ => Except.error PyError.indexError
  else
    Except.ok none

/-! ## Receive loop (`twitch_recieve_messages`) -/

/-- One outcome of the non-blocking `self.s.recv(4096)`. -/
inductive ReadEv where
  /-- Case `recv` returned this chunk of bytes -/
  | data (s : String)
  /-- Python `socket.error` with `errno` `EAGAIN`/`EWOULDBLOCK` -/
  | wouldBlock
  /-- Python `socket.error` with any other `errno` -/
  | fatal
deriving DecidableEq, Repr

/-- Result of a `twitch_recieve_messages` call: either a normal return
with the collected messages and the number of `connect()` calls made, or
an escaped exception (with the number of `connect()` calls made). -/
inductive PollRes where
  | ok (msgs : List ChatMsg) (connects : Nat)
  | exn (e : PyError) (connects : Nat)
deriving DecidableEq, Repr

/-- The list comprehension
`[self._parse_message(line) for line in filter(None, msg.split('\r\n'))]`
followed by `[r for r in rec if r]`: parse each non-empty line in order,
dropping `None` results; the first exception aborts the whole poll. -/
def parseLines : List String → Except PyError (List ChatMsg)
  | [] => Except.ok []
  | l :: ls =>
    match parse_message l with
    | Except.error e => Except.error e
    | Except.ok r =>
      match parseLines ls with
      | Except.error e => Except.error e
      | Except.ok rs => Except.ok (match r with | some m => m :: rs | none => rs)

/-- Python `msg.split('\r\n')`: split on every non-overlapping
occurrence of the two-character separator, left to right, keeping empty
pieces.  Written structurally; `skip` counts separator characters still
to be consumed after a separator was recognised. -/
def splitCRLFGo : List Char → Nat → List Char → List (List Char)
  | [], _, cur => [cur.reverse]
  | _ :: t, Nat.succ skip, cur => splitCRLFGo t skip cur
  | c :: t, 0, cur =>
    if startsWithB ['\r', '\n'] (c :: t) then
      cur.reverse :: splitCRLFGo t 1 []
    else
      splitCRLFGo t 0 (c :: cur)

/-- Python `msg.split('\r\n')` on strings. -/
def splitCRLF (s : String) : List String :=
  (splitCRLFGo s.data 0 []).map String.mk

/-- Processing of one received chunk: split on `'\r\n'`, drop empty
strings (`filter(None, ...)`), parse. -/
def parseChunk (s : String) : Except PyError (List ChatMsg) :=
  parseLines ((splitCRLF s).filter (fun l => l ≠ ""))

/-- Source `TwitchChatStream.twitch_recieve_messages`, driven by a script of
`recv` outcomes.  `connectOk` tells whether the recovery `self.connect()`
made on a fatal read error returns normally.  A would-block error returns
the accumulated result; a fatal error calls `connect()` once and returns
the accumulated result; a data chunk is parsed and the loop continues.
(The source loops forever waiting on the socket if the script runs out;
claims only use scripts ending in a would-block or fatal event.) -/
def twitch_recieve_messages (connectOk : Bool) :
    List ReadEv → List ChatMsg → PollRes
  | [], acc => PollRes.ok acc 0
  | ReadEv.wouldBlock :: _, acc => PollRes.ok acc 0
  | ReadEv.fatal :: _, acc =>
      if connectOk then PollRes.ok acc 1 else PollRes.exn PyError.connectError 1
  | ReadEv.data s :: rest, acc =>
      match parseChunk s with
      | Except.error e => PollRes.exn e 0
      | Except.ok ms => twitch_recieve_messages connectOk rest (acc ++ ms)

/-! ## Rate limiter and outbound sends (`_send`, `send_chat_message`,
`_send_pong`, `__init__`) -/

/-- The mutable state of a `TwitchChatStream` relevant to sending,
together with the log of strings handed to `self.s.send`. -/
structure ChatState where
  username : String
  oauth : String
  last_sent_time : ℚ
  sent : List String
deriving DecidableEq, Repr

/-- Source `TwitchChatStream.__init__` (without the auto-connect): records the
credentials and sets `last_sent_time = time.time()` at construction. -/
def initState (username oauth : String) (t0 : ℚ) : ChatState :=
  ⟨username, oauth, t0, []⟩

/-- Source `TwitchChatStream._send`.  `t1` is the `time.time()` read by the rate
gate, `t2` the `time.time()` read in the `finally:` block, `ok` whether
`self.s.send` succeeds.  Returns the new state and whether an exception
propagates out of `_send`.  When `time.time() - self.last_sent_time > 5`
fails, or the message is empty, nothing at all happens; otherwise
`message + "\n"` is sent and `last_sent_time` is set to `t2` in a
`finally:` block, hence also when the send raises. -/
def send_ (t1 t2 : ℚ) (ok : Bool) (message : String) (st : ChatState) :
    ChatState × Bool :=
  if 5 < t1 - st.last_sent_time then
    if 0 < message.length then
      if ok then
        ({ st with sent := st.sent ++ [message ++ "\n"], last_sent_time := t2 },
         false)
      else
        ({ st with last_sent_time := t2 }, true)
    else (st, false)
  else (st, false)

/-- Source `TwitchChatStream.send_chat_message`: formats
`"PRIVMSG #{username} :{message}"` and hands it to `_send`. -/
def send_chat_message (t1 t2 : ℚ) (ok : Bool) (message : String)
    (st : ChatState) : ChatState × Bool :=
  send_ t1 t2 ok ("PRIVMSG #" ++ st.username ++ " :" ++ message) st

/-- Source `TwitchChatStream._send_pong`: hands `"PONG"` to `_send`. -/
def send_pong (t1 t2 : ℚ) (ok : Bool) (st : ChatState) : ChatState × Bool :=
  send_ t1 t2 ok "PONG" st

/-! ## Connection lifecycle (`connect`) -/

/-- The part of a `TwitchChatStream` relevant to the socket lifecycle:
`self.s` holds the id of the owned socket, or `none`. -/
structure Sess where
  sockHandle : Option Nat
deriving DecidableEq, Repr

/-- The ambient socket resources: which socket ids are currently open,
and the id the next `socket.socket(...)` call will produce. -/
structure World where
  openIds : List Nat
  nextId : Nat
deriving DecidableEq, Repr

/-- Outcome of the blocking phase of `connect`: either the TCP connect
raises, or it succeeds and the server's first reply is `reply`. -/
inductive TcpOutcome where
  | tcpFail
  | tcpOk (reply : String)
deriving DecidableEq, Repr

/-- Source `TwitchChatStream.connect`, as a small-step trace of
`(Sess, World)` states, one per primitive step of the source:

0. initial state;
1. after `s = socket.socket(...)` (a fresh socket is open);
2. (on success, when a previous socket was held) after
   `self.s.close()`;
3. (on success) after `self.s = s`.

On a TCP failure or a login-unsuccessful reply the source raises, with
`self.s` untouched (and the fresh local socket left unclosed).
Returns the trace together with `true` when `connect` raises. -/
def connectTrace (sess : Sess) (w : World) (tcp : TcpOutcome) :
    List (Sess × World) × Bool :=
  let fresh := w.nextId
  let w1 : World := ⟨w.openIds ++ [fresh], fresh + 1⟩
  match tcp with
  | TcpOutcome.tcpFail => ([(sess, w), (sess, w1)], true)
  | TcpOutcome.tcpOk reply =>
    if twitch_logged_in reply then
      match sess.sockHandle with
      | some h =>
        let w2 : World := ⟨w1.openIds.filter (fun i => i ≠ h), w1.nextId⟩
        ([(sess, w), (sess, w1), (sess, w2), (⟨some fresh⟩, w2)], false)
      | none =>
        ([(sess, w), (sess, w1), (⟨some fresh⟩, w1)], false)
    else
      ([(sess, w), (sess, w1)], true)

/-- Number of open transport handles the session holds through its
`self.s` field. -/
def heldOpen (st : Sess × World) : Nat :=
  match st.1.sockHandle with
  | some h => if h ∈ st.2.openIds then 1 else 0
  | none => 0

/-! ## Auxiliary executable definitions used by the proofs -/

/-- A non-empty string of `[a-zA-Z0-9_]` characters. -/
def wordStrB (l : List Char) : Bool := !l.isEmpty && l.all wordChar

/-- Assemble a line of the PRIVMSG grammar of `_check_has_message` from
its constituent fields. -/
def mkLineS (nick user host dom chan text : String) : String :=
  ":" ++ nick ++ "!" ++ user ++ "@" ++ host ++ dom ++ " PRIVMSG #" ++ chan
    ++ " :" ++ text

/-- The same assembled line at the character-list level:
`:<nick>!<user>@<host><dom> PRIVMSG #<chan> :<text>`. -/
def lineL (nick user host dom chan text : List Char) : List Char :=
  ':' :: (nick ++ ('!' :: (user ++ ('@' :: (host ++ (dom
    ++ ((" PRIVMSG #").data ++ (chan ++ ((" :").data ++ text)))))))))

/-- Modelled from the spec: the remainder of a line after the final
`':'` (the spec's description of the extracted message text), written
from the spec's words for comparison against what the code extracts. -/
def afterLastColon (s : String) : String :=
  String.mk ((s.data.reverse.takeWhile (fun c => c ≠ ':')).reverse)

/-- Parse a list of received chunks in order, concatenating the
resulting messages; the first exception aborts. -/
def parseChunks : List String → Except PyError (List ChatMsg)
  | [] => Except.ok []
  | c :: cs =>
    match parseChunk c with
    | Except.error e => Except.error e
    | Except.ok ms =>
      match parseChunks cs with
      | Except.error e => Except.error e
      | Except.ok ms' => Except.ok (ms ++ ms')

/-! ## Helper lemmas about `_send` -/

/-- When the rate gate fails (elapsed time at most 5 seconds), `_send`
does nothing at all. -/
theorem send_drop_of_le (t1 t2 : ℚ) (ok : Bool) (m : String) (st : ChatState)
    (h : t1 - st.last_sent_time ≤ 5) : send_ t1 t2 ok m st = (st, false) := by
  unfold send_
  rw [if_neg (by linarith)]

/-- When the rate gate passes on a non-empty message, `last_sent_time`
is set to the time read in the `finally:` block, whether or not the
transport send succeeds. -/
theorem send_update_of_gt (t1 t2 : ℚ) (ok : Bool) (m : String) (st : ChatState)
    (h : 5 < t1 - st.last_sent_time) (hm : 0 < m.length) :
    (send_ t1 t2 ok m st).1.last_sent_time = t2 := by
  unfold send_
  rw [if_pos h, if_pos hm]
  cases ok <;> rfl

/-- When the rate gate passes on a non-empty message and the transport
send succeeds, `_send` appends exactly `message + "\n"` to the transport
log, updates the clock, and leaves the credentials alone. -/
theorem send_ok_of_gt (t1 t2 : ℚ) (m : String) (st : ChatState)
    (h : 5 < t1 - st.last_sent_time) (hm : 0 < m.length) :
    send_ t1 t2 true m st
      = ({ st with sent := st.sent ++ [m ++ "\n"], last_sent_time := t2 },
         false) := by
  unfold send_
  rw [if_pos h, if_pos hm]
  rfl

/-! ## Claims about the rate limiter -/

/-- C9: when a send is dropped by the rate limiter (elapsed time since
`last_sent_time` at most 5 seconds), the session state is completely
unchanged — in particular `last_sent_time` keeps its previous value, so a
dropped send does not extend the quiet window — and no error escapes. -/
theorem C9_dropped_send_no_frame_effect (st : ChatState) (t1 t2 : ℚ)
    (ok : Bool) (m : String) (h : t1 - st.last_sent_time ≤ 5) :
    send_ t1 t2 ok m st = (st, false) :=
  send_drop_of_le t1 t2 ok m st h

/-- C9 witness: a concrete dropped send leaves the state untouched. -/
theorem C9_witness :
    (3 : ℚ) - (initState "u" "o" 0).last_sent_time ≤ 5 ∧
    send_ 3 3 true "hi" (initState "u" "o" 0) = (initState "u" "o" 0, false) :=
  ⟨by norm_num [initState],
   C9_dropped_send_no_frame_effect (initState "u" "o" 0) 3 3 true "hi"
     (by norm_num [initState])⟩

/-- C10: the constructor sets `last_sent_time` to the construction time
`t0`, so any `send_chat_message` and any `_send_pong` whose rate-gate
clock reads at most 5 seconds past `t0` is silently dropped, even though
nothing was ever sent on the connection. -/
theorem C10_initial_quiet_window (u o : String) (t0 t1 t2 : ℚ) (ok : Bool)
    (m : String) (h : t1 - t0 ≤ 5) :
    (initState u o t0).last_sent_time = t0 ∧
    send_chat_message t1 t2 ok m (initState u o t0) = (initState u o t0, false) ∧
    send_pong t1 t2 ok (initState u o t0) = (initState u o t0, false) :=
  ⟨rfl,
   send_drop_of_le t1 t2 ok _ (initState u o t0) h,
   send_drop_of_le t1 t2 ok _ (initState u o t0) h⟩

/-- C10 witness: 4 seconds after construction, a chat message and a pong
are both dropped with the state untouched. -/
theorem C10_witness :
    (4 : ℚ) - 0 ≤ 5 ∧
    send_chat_message 4 4 true "hello" (initState "u" "o" 0)
      = (initState "u" "o" 0, false) ∧
    send_pong 4 4 true (initState "u" "o" 0) = (initState "u" "o" 0, false) :=
  ⟨by norm_num,
   (C10_initial_quiet_window "u" "o" 0 4 4 true "hello" (by norm_num)).2.1,
   (C10_initial_quiet_window "u" "o" 0 4 4 true "hello" (by norm_num)).2.2⟩

/-- C6: whenever the rate gate is passed (elapsed time strictly greater
than 5 seconds and the message non-empty), `last_sent_time` is updated to
the current time `t2` regardless of whether the transport send succeeds
(`ok = true`) or fails (`ok = false`): a failed send still resets the
timer. -/
theorem C6_timer_reset_regardless (st : ChatState) (t1 t2 : ℚ) (ok : Bool)
    (m : String) (h : 5 < t1 - st.last_sent_time) (hm : 0 < m.length) :
    (send_ t1 t2 ok m st).1.last_sent_time = t2 :=
  send_update_of_gt t1 t2 ok m st h hm

/-- C6 witness: a concrete failed send still resets the timer. -/
theorem C6_witness :
    (5 : ℚ) < 17 - (initState "u" "o" 0).last_sent_time ∧
    0 < ("boom" : String).length ∧
    (send_ 17 18 false "boom" (initState "u" "o" 0)).1.last_sent_time = 18 :=
  ⟨by norm_num [initState], by decide,
   C6_timer_reset_regardless (initState "u" "o" 0) 17 18 false "boom"
     (by norm_num [initState]) (by decide)⟩

/-- C2 counterexample: the claim says a gap of at least 5 seconds lets
both sends through, but the source gate is strictly `> 5`: with the first
send at time 6 (passing the gate) and the second at time 11 — a gap of
exactly 5 ≥ 5 — only the first message reaches the transport. -/
theorem C2_counterexample :
    (5 : ℚ) ≤ 11 - 6 ∧
    (send_ 11 11 true "b" (send_ 6 6 true "a" (initState "u" "o" 0)).1).1.sent
      = ["a\n"] := by
  constructor
  · norm_num
  · have h1 : send_ 6 6 true "a" (initState "u" "o" 0)
        = (⟨"u", "o", 6, ["a\n"]⟩, false) := by
      simp [send_, initState]; norm_num; decide
    rw [h1]
    have h2 : ¬ ((5 : ℚ) < 11 - 6) := by norm_num
    simp [send_, h2]

/-- C2 (amended): for two consecutive `_send` calls where the first
passes the rate gate (elapsed strictly greater than 5, non-empty message,
send succeeding): if the second's gate clock is at most 5 seconds past
the first's update time it is silently dropped (no send, no error); if it
is strictly more than 5 seconds past and the second message is non-empty,
both messages reach the transport. -/
theorem C2_consecutive_sends (st : ChatState) (t1 t2 u1 u2 : ℚ)
    (m1 m2 : String) (h1 : 5 < t1 - st.last_sent_time)
    (hm1 : 0 < m1.length) (hm2 : 0 < m2.length) :
    (u1 - t2 ≤ 5 →
      send_ u1 u2 true m2 (send_ t1 t2 true m1 st).1
        = ((send_ t1 t2 true m1 st).1, false)) ∧
    (5 < u1 - t2 →
      (send_ u1 u2 true m2 (send_ t1 t2 true m1 st).1).1.sent
        = st.sent ++ [m1 ++ "\n", m2 ++ "\n"]) := by
  have hst1 := send_ok_of_gt t1 t2 m1 st h1 hm1
  constructor
  · intro hle
    exact send_drop_of_le u1 u2 true m2 _ (by rw [hst1]; exact hle)
  · intro hgt
    rw [hst1]
    rw [send_ok_of_gt u1 u2 m2 _ (by exact hgt) hm2]
    simp

/-- C2 witness: first send at 6, second at 12 (gap 6 > 5): both reach the
transport; and with the second at 11 (gap 5) it is dropped. -/
theorem C2_witness :
    ((5 : ℚ) < 6 - (initState "u" "o" 0).last_sent_time ∧
      0 < ("a" : String).length ∧ 0 < ("b" : String).length) ∧
    (send_ 12 12 true "b" (send_ 6 6 true "a" (initState "u" "o" 0)).1).1.sent
      = ["a\n", "b\n"] ∧
    send_ 11 11 true "b" (send_ 6 6 true "a" (initState "u" "o" 0)).1
      = ((send_ 6 6 true "a" (initState "u" "o" 0)).1, false) := by
  refine ⟨⟨by norm_num [initState], by decide, by decide⟩, ?_, ?_⟩
  · have := (C2_consecutive_sends (initState "u" "o" 0) 6 6 12 12 "a" "b"
      (by norm_num [initState]) (by decide) (by decide)).2 (by norm_num)
    simpa [initState] using this
  · exact (C2_consecutive_sends (initState "u" "o" 0) 6 6 11 11 "a" "b"
      (by norm_num [initState]) (by decide) (by decide)).1 (by norm_num)

/-- C7 counterexample: outbound lines are LF-terminated, not
CRLF-terminated as the claim states: a passing chat send writes
`"PRIVMSG #user :hi\n"` (not `"...\r\n"`), and a pong writes `"PONG\n"`
(not `"PONG\r\n"`). -/
theorem C7_counterexample :
    (send_chat_message 6 6 true "hi" (initState "user" "o" 0)).1.sent
      = ["PRIVMSG #user :hi\n"] ∧
    ("PRIVMSG #user :hi\n" : String) ≠ "PRIVMSG #user :hi\r\n" ∧
    (send_pong 6 6 true (initState "user" "o" 0)).1.sent = ["PONG\n"] ∧
    ("PONG\n" : String) ≠ "PONG\r\n" := by
  refine ⟨?_, by decide, ?_, by decide⟩
  · rw [send_chat_message,
      send_ok_of_gt 6 6 _ (initState "user" "o" 0) (by norm_num [initState])
        (by decide)]
    decide
  · rw [send_pong,
      send_ok_of_gt 6 6 _ (initState "user" "o" 0) (by norm_num [initState])
        (by decide)]
    decide

/-- C7 (amended): every outbound chat and keepalive line written to the
transport in steady state is LF-terminated: a sent chat message has the
exact form `"PRIVMSG #<username> :<text>\n"` and a pong reply the exact
form `"PONG\n"` (a single `"\n"` is appended by `_send`, not `"\r\n"`). -/
theorem C7_lf_terminated (st : ChatState) (t1 t2 : ℚ) (m : String)
    (h : 5 < t1 - st.last_sent_time) :
    (send_chat_message t1 t2 true m st).1.sent
      = st.sent ++ ["PRIVMSG #" ++ st.username ++ " :" ++ m ++ "\n"] ∧
    (send_pong t1 t2 true st).1.sent = st.sent ++ ["PONG\n"] := by
  constructor
  · rw [send_chat_message, send_ok_of_gt t1 t2 _ st h
      (by simp [String.length_append]; exact Or.inl (Or.inl (Or.inl (by decide))))]
  · rw [send_pong, send_ok_of_gt t1 t2 _ st h (by decide)]
    rfl

/-- C7 witness: a concrete passing chat send and pong produce exactly the
LF-terminated lines. -/
theorem C7_witness :
    (5 : ℚ) < 9 - (initState "me" "o" 0).last_sent_time ∧
    (send_chat_message 9 9 true "yo" (initState "me" "o" 0)).1.sent
      = ["PRIVMSG #me :yo\n"] ∧
    (send_pong 9 9 true (initState "me" "o" 0)).1.sent = ["PONG\n"] := by
  refine ⟨by norm_num [initState], ?_, ?_⟩
  · have := (C7_lf_terminated (initState "me" "o" 0) 9 9 "yo"
      (by norm_num [initState])).1
    simpa [initState] using this
  · have := (C7_lf_terminated (initState "me" "o" 0) 9 9 "yo"
      (by norm_num [initState])).2
    simpa [initState] using this

/-! ## Claims about the receive loop -/

/-- C3: `_check_has_ping` does accept `"PING :tmi.twitch.tv"`, but no
pong is ever sent for it: `_parse_message` calls `self.send_pong()`
while the class only defines `_send_pong`, so a poll that reads a ping
line raises `AttributeError` instead of answering the ping. -/
theorem C3_ping_crashes_poll :
    check_has_ping "PING :tmi.twitch.tv" = true ∧
    parse_message "PING :tmi.twitch.tv" = Except.error PyError.attrError ∧
    twitch_recieve_messages true [ReadEv.data "PING :tmi.twitch.tv\r\n"] []
      = PollRes.exn PyError.attrError 0 :=
  ⟨by decide, by decide, by decide⟩

/-- Auxiliary induction for C4: draining data chunks that all parse
cleanly and then hitting a fatal read error yields exactly the parsed
messages appended to the accumulator, with exactly one `connect()`. -/
theorem poll_drain_aux (rest : List ReadEv) (chunks : List String) :
    ∀ acc ms : List ChatMsg, parseChunks chunks = Except.ok ms →
      twitch_recieve_messages true
          (List.map ReadEv.data chunks ++ ReadEv.fatal :: rest) acc
        = PollRes.ok (acc ++ ms) 1 := by
  induction chunks with
  | nil =>
    intro acc ms h
    rw [parseChunks] at h
    cases h
    simp [twitch_recieve_messages]
  | cons c cs ih =>
    intro acc ms h
    rw [parseChunks] at h
    cases hc : parseChunk c with
    | error e => rw [hc] at h; cases h
    | ok ms1 =>
      rw [hc] at h
      cases hcs : parseChunks cs with
      | error e => rw [hcs] at h; cases h
      | ok ms2 =>
        rw [hcs] at h
        cases h
        rw [List.map_cons, List.cons_append, twitch_recieve_messages, hc]
        exact (ih (acc ++ ms1) ms2 hcs).trans (by rw [List.append_assoc])

/-- C4: when a read during a poll fails with a transport error other
than would-block, `twitch_recieve_messages` invokes `connect()` exactly
once and returns the messages accumulated before the failure; the
transport error itself is not surfaced (the result is a normal return,
assuming the recovery `connect()` itself returns). -/
theorem C4_fatal_error_reconnects_once (chunks : List String)
    (rest : List ReadEv) (ms : List ChatMsg)
    (h : parseChunks chunks = Except.ok ms) :
    twitch_recieve_messages true
        (List.map ReadEv.data chunks ++ ReadEv.fatal :: rest) []
      = PollRes.ok ms 1 := by
  simpa using poll_drain_aux rest chunks [] ms h

/-- C4 witness: one clean chat chunk followed by a fatal read error
yields that message and exactly one reconnect. -/
theorem C4_witness :
    parseChunks [":a!a@a.tmi.twitch.tv PRIVMSG #c :hi\r\n"]
      = Except.ok [⟨"#c", "a", "hi"⟩] ∧
    twitch_recieve_messages true
        [ReadEv.data ":a!a@a.tmi.twitch.tv PRIVMSG #c :hi\r\n", ReadEv.fatal] []
      = PollRes.ok [⟨"#c", "a", "hi"⟩] 1 :=
  ⟨by decide, by
    have := C4_fatal_error_reconnects_once
      [":a!a@a.tmi.twitch.tv PRIVMSG #c :hi\r\n"] [] [⟨"#c", "a", "hi"⟩]
      (by decide)
    simpa using this⟩

/-! ## Claims about the connection lifecycle -/

/-- A session references at most one socket through `self.s`, so it can
hold at most one open transport handle at any instant. -/
theorem heldOpen_le_one (st : Sess × World) : heldOpen st ≤ 1 := by
  unfold heldOpen
  cases st.1.sockHandle with
  | none => exact Nat.zero_le 1
  | some h =>
    dsimp only
    split
    · exact Nat.le_refl 1
    · exact Nat.zero_le 1

/-- C8: at every step of any `connect` call (successful or failed) the
session holds at most one open transport handle; and on a successful
`connect` from a session holding handle `h`, the trace closes `h` first
(the third state still references `h`, but `h` is no longer open) and
only then stores the fresh handle, which is open — so the session owns
exactly zero or one open transport resource at any time. -/
theorem C8_socket_lifecycle (sess : Sess) (w : World) (tcp : TcpOutcome) :
    (∀ st ∈ (connectTrace sess w tcp).1, heldOpen st ≤ 1) ∧
    (∀ (h : Nat) (reply : String), sess.sockHandle = some h → h ≠ w.nextId →
      twitch_logged_in reply = true →
      ∃ w2 : World,
        connectTrace sess w (TcpOutcome.tcpOk reply)
          = ([(sess, w), (sess, ⟨w.openIds ++ [w.nextId], w.nextId + 1⟩),
              (sess, w2), (⟨some w.nextId⟩, w2)], false) ∧
        heldOpen (sess, w2) = 0 ∧
        heldOpen (⟨some w.nextId⟩, w2) = 1) := by
  constructor
  · intro st _
    exact heldOpen_le_one st
  · intro h reply hs hne hlog
    refine ⟨⟨(w.openIds ++ [w.nextId]).filter (fun i => i ≠ h), w.nextId + 1⟩,
      ?_, ?_, ?_⟩
    · unfold connectTrace
      simp [hs, hlog]
    · unfold heldOpen
      rw [hs]
      simp [List.mem_filter]
    · unfold heldOpen
      simp [List.mem_filter, Ne.symm hne]

/-- C8 witness: a concrete successful reconnect from a session holding
handle 3: the trace closes 3 before storing the fresh handle 7. -/
theorem C8_witness :
    (⟨some 3⟩ : Sess).sockHandle = some 3 ∧ (3 : Nat) ≠ 7 ∧
    twitch_logged_in "welcome" = true ∧
    ∃ w2 : World,
      connectTrace ⟨some 3⟩ ⟨[3], 7⟩ (TcpOutcome.tcpOk "welcome")
        = ([(⟨some 3⟩, ⟨[3], 7⟩), (⟨some 3⟩, ⟨[3, 7], 8⟩), (⟨some 3⟩, w2),
            (⟨some 7⟩, w2)], false) ∧
      heldOpen (⟨some 3⟩, w2) = 0 ∧ heldOpen (⟨some 7⟩, w2) = 1 :=
  ⟨rfl, by decide, by decide,
   (C8_socket_lifecycle ⟨some 3⟩ ⟨[3], 7⟩ (TcpOutcome.tcpOk "welcome")).2
     3 "welcome" rfl (by decide) (by decide)⟩

/-! ## Stepping lemmas for the regex matcher -/

theorem run_seq (a b : RE) (s : List Char) (cap : Option (List Char)) (k) :
    reRun (RE.seq a b) s cap k
      = reRun a s cap (fun s' cap' => reRun b s' cap' k) := rfl

theorem run_alt (a b : RE) (s : List Char) (cap : Option (List Char)) (k) :
    reRun (RE.alt a b) s cap k = oElse (reRun a s cap k) (reRun b s cap k) := rfl

theorem run_grp (r : RE) (s : List Char) (cap : Option (List Char)) (k) :
    reRun (RE.grp r) s cap k
      = reRun r s cap
          (fun s' _ => k s' (some (s.take (s.length - s'.length)))) := rfl

theorem run_eol (s : List Char) (cap : Option (List Char)) (k) :
    reRun RE.eol s cap k = if s = [] ∨ s = ['\n'] then k s cap else none := rfl

theorem run_starCG (p : Char → Bool) (s : List Char) (cap : Option (List Char))
    (k) : reRun (RE.starCG p) s cap k = gScan p k cap s := rfl

theorem run_starCL (p : Char → Bool) (s : List Char) (cap : Option (List Char))
    (k) : reRun (RE.starCL p) s cap k = lScan p k cap s := rfl

theorem run_ch_nil (c : Char) (cap : Option (List Char)) (k) :
    reRun (RE.ch c) [] cap k = none := rfl

theorem run_ch_cons (c c' : Char) (t : List Char) (cap : Option (List Char))
    (k) : reRun (RE.ch c) (c' :: t) cap k = if c' = c then k t cap else none :=
  rfl

theorem run_plusC (p : Char → Bool) (s : List Char) (cap : Option (List Char))
    (k) : reRun (plusC p) s cap k
      = match s with
        | [] => none
        | c :: t => if p c then gScan p k cap t else none := by
  cases s with
  | nil => rfl
  | cons c t =>
    show (if p c then gScan p k cap t else none) = _
    rfl

theorem oElse_isSome (x y : Option (Option (List Char))) :
    (oElse x y).isSome = (x.isSome || y.isSome) := by
  cases x <;> rfl

theorem oElse_none (x : Option (Option (List Char))) : oElse x none = x := by
  cases x <;> rfl

theorem oElse_some_left (x y : Option (Option (List Char))) (v)
    (h : x = some v) : oElse x y = some v := by rw [h]; rfl

theorem oElse_none_left (x y : Option (Option (List Char))) (h : x = none) :
    oElse x y = y := by rw [h]; rfl

/-! ## Lemmas about `dropPfx` and literals -/

theorem dropPfx_eq_some (cs : List Char) :
    ∀ s r, dropPfx cs s = some r ↔ s = cs ++ r := by
  induction cs with
  | nil =>
    intro s r
    simp [dropPfx]
  | cons c cs ih =>
    intro s r
    cases s with
    | nil => simp [dropPfx]
    | cons c' t =>
      show (if c' = c then dropPfx cs t else none) = some r
        ↔ c' :: t = c :: (cs ++ r)
      by_cases h : c' = c
      · subst h
        rw [if_pos rfl, ih]
        simp
      · rw [if_neg h]
        simp [h]

theorem dropPfx_append (cs r : List Char) : dropPfx cs (cs ++ r) = some r :=
  (dropPfx_eq_some cs (cs ++ r) r).mpr rfl

theorem litL_run (cs : List Char) :
    ∀ (s : List Char) (cap : Option (List Char)) k,
      reRun (litL cs) s cap k
        = match dropPfx cs s with
          | some r => k r cap
          | none => none := by
  induction cs with
  | nil => intro s cap k; rfl
  | cons c cs ih =>
    intro s cap k
    cases s with
    | nil => rfl
    | cons c' t =>
      show (if c' = c then reRun (litL cs) t cap k else none)
        = match (if c' = c then dropPfx cs t else none) with
          | some r => k r cap
          | none => none
      by_cases h : c' = c
      · rw [if_pos h, if_pos h, ih]
      · rw [if_neg h, if_neg h]

/-! ## C5: the exact ping lines -/

/-- C5 counterexample: the claim accepts `PING :<suffix>.testserver.local`
for any non-empty suffix, but the source pattern
`^PING :(tmi\.twitch\.tv|\.testserver\.local)$` only accepts a literal
`.testserver.local` host: with suffix `a` the check is `False`, while the
suffix-free line (which the claim rejects) is accepted. -/
theorem C5_counterexample :
    check_has_ping "PING :a.testserver.local" = false ∧
    check_has_ping "PING :.testserver.local" = true := by
  constructor <;> decide

/-- C5 (amended): `_check_has_ping` accepts exactly the two literal lines
`"PING :tmi.twitch.tv"` and `"PING :.testserver.local"` — no non-empty
suffix before `.testserver.local` is allowed — plus, per Python `$`
semantics, either line with a single trailing newline. -/
theorem C5_ping_exact (s : String) :
    check_has_ping s = true ↔
      (s = "PING :tmi.twitch.tv" ∨ s = "PING :.testserver.local" ∨
       s = "PING :tmi.twitch.tv\n" ∨ s = "PING :.testserver.local\n") := by
  constructor
  · intro h
    have h0 : (reRun (litL ("PING :").data) s.data none
        (fun s' cap' => reRun (RE.seq (RE.grp (RE.alt
          (litL ("tmi.twitch.tv").data) (litL (".testserver.local").data)))
          RE.eol) s' cap' ktop)).isSome = true := h
    rw [litL_run] at h0
    cases hP : dropPfx ("PING :").data s.data with
    | none => rw [hP] at h0; cases h0
    | some r =>
      rw [hP] at h0
      have hs : s.data = ("PING :").data ++ r := (dropPfx_eq_some _ _ _).mp hP
      have h1 : (oElse
          (reRun (litL ("tmi.twitch.tv").data) r none
            (fun s' _ => reRun RE.eol s'
              (some (r.take (r.length - s'.length))) ktop))
          (reRun (litL (".testserver.local").data) r none
            (fun s' _ => reRun RE.eol s'
              (some (r.take (r.length - s'.length))) ktop))).isSome = true := h0
      rw [oElse_isSome, litL_run, litL_run] at h1
      rcases (Bool.or_eq_true _ _).mp h1 with h2 | h2
      · cases hA : dropPfx ("tmi.twitch.tv").data r with
        | none => rw [hA] at h2; cases h2
        | some r' =>
          rw [hA] at h2
          have hr : r = ("tmi.twitch.tv").data ++ r' :=
            (dropPfx_eq_some _ _ _).mp hA
          have h3 : (reRun RE.eol r'
              (some (r.take (r.length - r'.length))) ktop).isSome = true := h2
          rw [run_eol] at h3
          by_cases he : r' = [] ∨ r' = ['\n']
          · rcases he with he | he
            · left
              apply String.ext
              rw [hs, hr, he]
              decide
            · right; right; left
              apply String.ext
              rw [hs, hr, he]
              decide
          · rw [if_neg he] at h3; cases h3
      · cases hB : dropPfx (".testserver.local").data r with
        | none => rw [hB] at h2; cases h2
        | some r' =>
          rw [hB] at h2
          have hr : r = (".testserver.local").data ++ r' :=
            (dropPfx_eq_some _ _ _).mp hB
          have h3 : (reRun RE.eol r'
              (some (r.take (r.length - r'.length))) ktop).isSome = true := h2
          rw [run_eol] at h3
          by_cases he : r' = [] ∨ r' = ['\n']
          · rcases he with he | he
            · right; left
              apply String.ext
              rw [hs, hr, he]
              decide
            · right; right; right
              apply String.ext
              rw [hs, hr, he]
              decide
          · rw [if_neg he] at h3; cases h3
  · rintro (rfl | rfl | rfl | rfl) <;> decide

/-- C5 witness: instances of the amended characterisation. -/
theorem C5_witness :
    check_has_ping "PING :tmi.twitch.tv" = true ∧
    check_has_ping "PING :xyz" ≠ true :=
  ⟨(C5_ping_exact "PING :tmi.twitch.tv").mpr (Or.inl rfl),
   fun h => by rcases (C5_ping_exact "PING :xyz").mp h with h | h | h | h <;>
     simp at h⟩

/-! ## Suffix lemmas -/

theorem sfxOf_refl (l : List Char) : sfxOf l l := ⟨[], rfl⟩

theorem sfxOf_cons (c : Char) {w t : List Char} (h : sfxOf w t) :
    sfxOf w (c :: t) := by
  obtain ⟨a, ha⟩ := h
  exact ⟨c :: a, by rw [ha]; rfl⟩

theorem sfxOf_nil_inv {w : List Char} (h : sfxOf w []) : w = [] := by
  obtain ⟨a, ha⟩ := h
  exact (List.append_eq_nil.mp ha.symm).2

theorem sfxOf_cons_inv {w : List Char} {c : Char} {t : List Char}
    (h : sfxOf w (c :: t)) : w = c :: t ∨ sfxOf w t := by
  obtain ⟨a, ha⟩ := h
  cases a with
  | nil => left; exact ha.symm
  | cons b a =>
    right
    refine ⟨a, ?_⟩
    have := List.cons.injEq c t b (a ++ w) ▸ ha
    exact (List.cons.inj ha).2

theorem sfxOf_trans {a b c : List Char} (h1 : sfxOf a b) (h2 : sfxOf b c) :
    sfxOf a c := by
  obtain ⟨x, hx⟩ := h1
  obtain ⟨y, hy⟩ := h2
  exact ⟨y ++ x, by rw [hy, hx, List.append_assoc]⟩

theorem sfxOf_tail (c : Char) (t : List Char) : sfxOf t (c :: t) := ⟨[c], rfl⟩

theorem sfxOf_subset {w l : List Char} (h : sfxOf w l) : ∀ c ∈ w, c ∈ l := by
  obtain ⟨a, ha⟩ := h
  intro c hc
  rw [ha]
  exact List.mem_append_right a hc

theorem sfxOf_head_mem {w l : List Char} (h : sfxOf w l) {c : Char}
    {t : List Char} (hw : w = c :: t) : c ∈ l :=
  sfxOf_subset h c (hw ▸ List.mem_cons_self c t)

theorem sfxOf_append_split {w x y : List Char} (h : sfxOf w (x ++ y)) :
    sfxOf w y ∨ ∃ x', sfxOf x' x ∧ x' ≠ [] ∧ w = x' ++ y := by
  induction x with
  | nil => left; exact h
  | cons c x ih =>
    rcases sfxOf_cons_inv h with rfl | h'
    · right
      exact ⟨c :: x, sfxOf_refl _, by simp, rfl⟩
    · rcases ih h' with h'' | ⟨x', hx', hne, rfl⟩
      · left; exact h''
      · right
        exact ⟨x', sfxOf_cons c hx', hne, rfl⟩

/-! ## Scan lemmas for greedy and lazy class stars -/

theorem gScan_nohead (p : Char → Bool) (k) (cap : Option (List Char))
    (c : Char) (t : List Char) (hc : p c = false) :
    gScan p k cap (c :: t) = k (c :: t) cap := by
  show (if p c then oElse (gScan p k cap t) (k (c :: t) cap)
        else k (c :: t) cap) = k (c :: t) cap
  rw [hc]
  rfl

theorem gScan_prepend (p : Char → Bool) (k) (cap : Option (List Char)) :
    ∀ (a rest : List Char) (v : Option (List Char)),
      (∀ c ∈ a, p c = true) → gScan p k cap rest = some v →
      gScan p k cap (a ++ rest) = some v := by
  intro a
  induction a with
  | nil => intro rest v _ h; exact h
  | cons c a ih =>
    intro rest v hall h
    have hc : p c = true := hall c (List.mem_cons_self c a)
    show (if p c then oElse (gScan p k cap (a ++ rest)) (k (c :: (a ++ rest)) cap)
          else k (c :: (a ++ rest)) cap) = some v
    rw [hc, if_pos rfl,
      ih rest v (fun x hx => hall x (List.mem_cons_of_mem c hx)) h]
    rfl

theorem gScan_none (p : Char → Bool) (k) (cap : Option (List Char)) :
    ∀ s : List Char, (∀ w, sfxOf w s → k w cap = none) →
      gScan p k cap s = none := by
  intro s
  induction s with
  | nil => intro h; exact h [] (sfxOf_refl [])
  | cons c t ih =>
    intro h
    have hk : k (c :: t) cap = none := h (c :: t) (sfxOf_refl _)
    have ht : gScan p k cap t = none := ih (fun w hw => h w (sfxOf_cons c hw))
    show (if p c then oElse (gScan p k cap t) (k (c :: t) cap)
          else k (c :: t) cap) = none
    by_cases hc : p c = true
    · rw [hc, if_pos rfl, ht, hk]
      rfl
    · rw [Bool.not_eq_true] at hc
      rw [hc]
      simpa using hk

theorem gScan_cons_of_none (p : Char → Bool) (k) (cap : Option (List Char))
    (c : Char) (t : List Char) (v : Option (List Char)) (hc : p c = true)
    (ht : gScan p k cap t = none) (hk : k (c :: t) cap = some v) :
    gScan p k cap (c :: t) = some v := by
  show (if p c then oElse (gScan p k cap t) (k (c :: t) cap)
        else k (c :: t) cap) = some v
  rw [hc, if_pos rfl, ht, hk]
  rfl

theorem lScan_hit (p : Char → Bool) (k) (cap : Option (List Char))
    (rest : List Char) (v : Option (List Char)) (h : k rest cap = some v) :
    lScan p k cap rest = some v := by
  cases rest with
  | nil => exact h
  | cons c t =>
    show oElse (k (c :: t) cap) _ = some v
    rw [h]
    rfl

theorem lScan_append (p : Char → Bool) (k) (cap : Option (List Char)) :
    ∀ (a rest : List Char),
      (∀ c ∈ a, p c = true) →
      (∀ a', a' ≠ [] → sfxOf a' a → k (a' ++ rest) cap = none) →
      lScan p k cap (a ++ rest) = lScan p k cap rest := by
  intro a
  induction a with
  | nil => intro rest _ _; rfl
  | cons c a ih =>
    intro rest hall hk
    have hc : p c = true := hall c (List.mem_cons_self c a)
    have hknil : k ((c :: a) ++ rest) cap = none :=
      hk (c :: a) (by simp) (sfxOf_refl _)
    show oElse (k (c :: (a ++ rest)) cap)
        (if p c then lScan p k cap (a ++ rest) else none) = lScan p k cap rest
    rw [show (c :: (a ++ rest)) = ((c :: a) ++ rest) from rfl, hknil, hc,
      if_pos rfl]
    exact ih rest (fun x hx => hall x (List.mem_cons_of_mem c hx))
      (fun a' hne ha' => hk a' hne (sfxOf_cons c ha'))

/-! ## Occurrence lemmas -/

theorem segInB_of_append (m : List Char) :
    ∀ (a r : List Char), segInB m (a ++ (m ++ r)) = true := by
  intro a
  induction a with
  | nil =>
    intro r
    show segInB m (m ++ r) = true
    cases m with
    | nil =>
      cases r with
      | nil => rfl
      | cons c t => rfl
    | cons c cs =>
      show ((dropPfx (c :: cs) ((c :: cs) ++ r)).isSome
        || segInB (c :: cs) (cs ++ r)) = true
      rw [dropPfx_append]
      rfl
  | cons c a ih =>
    intro r
    show (startsWithB m ((c :: a) ++ (m ++ r))
      || segInB m (a ++ (m ++ r))) = true
    rw [ih r, Bool.or_true]

theorem dropPfx_none_of_not_seg {m l w : List Char}
    (hseg : segInB m l = false) (hw : sfxOf w l) : dropPfx m w = none := by
  cases hd : dropPfx m w with
  | none => rfl
  | some r =>
    exfalso
    have hwm : w = m ++ r := (dropPfx_eq_some _ _ _).mp hd
    obtain ⟨a, ha⟩ := hw
    rw [ha, hwm, segInB_of_append] at hseg
    cases hseg

/-! ## Character class facts -/

theorem wordChar_spec {c : Char} (h : wordChar c = true) :
    c ≠ ' ' ∧ c ≠ '!' ∧ c ≠ '@' ∧ c ≠ '#' ∧ c ≠ ':' ∧ c ≠ '.' ∧
    c ≠ '\n' ∧ c ≠ '\r' := by
  refine ⟨?_, ?_, ?_, ?_, ?_, ?_, ?_, ?_⟩ <;> rintro rfl <;> revert h <;> decide

theorem dotChar_of_ne {c : Char} (h : c ≠ '\n') : dotChar c = true := by
  simp [dotChar, h]

theorem dotChar_of_word {c : Char} (h : wordChar c = true) :
    dotChar c = true :=
  dotChar_of_ne (wordChar_spec h).2.2.2.2.2.2.1

theorem wordStrB_iff (l : List Char) :
    wordStrB l = true ↔ l ≠ [] ∧ ∀ c ∈ l, wordChar c = true := by
  rw [wordStrB, Bool.and_eq_true, List.all_eq_true, Bool.not_eq_true',
    List.isEmpty_eq_false]

/-! ## Stage lemmas: runs of `p+`, literals, groups inside a regex -/

/-- A `p+` stage: consume the maximal run `c0 :: a`, then continue with
whatever the greedy scan of the boundary yields. -/
theorem run_seq_plus (p : Char → Bool) (r : RE) (cap : Option (List Char)) (k)
    (c0 : Char) (a rest : List Char) (v : Option (List Char))
    (hc0 : p c0 = true) (ha : ∀ x ∈ a, p x = true)
    (hstop : gScan p (fun s' cap' => reRun r s' cap' k) cap rest = some v) :
    reRun (RE.seq (plusC p) r) ((c0 :: a) ++ rest) cap k = some v := by
  show (if p c0 = true then
      gScan p (fun s' cap' => reRun r s' cap' k) cap (a ++ rest)
      else none) = some v
  rw [hc0, if_pos rfl]
  exact gScan_prepend p _ cap a rest v ha hstop

/-- A literal-headed alternative fails on input that does not start with
the literal. -/
theorem run_seq_lit_none (m : List Char) (r : RE) (k)
    (cap : Option (List Char)) (w : List Char) (h : dropPfx m w = none) :
    reRun (RE.seq (litL m) r) w cap k = none := by
  have hh := litL_run m w cap (fun s' cap' => reRun r s' cap' k)
  rw [h] at hh
  exact hh

/-- A `ch`-headed regex fails on input not starting with that character. -/
theorem run_seq_ch_none (cEnd : Char) (r : RE) (k) (cap : Option (List Char))
    (w : List Char)
    (hw : w = [] ∨ ∃ c t, w = c :: t ∧ c ≠ cEnd) :
    reRun (RE.seq (RE.ch cEnd) r) w cap k = none := by
  rcases hw with rfl | ⟨c, t, rfl, hc⟩
  · rfl
  · show (if c = cEnd then reRun r t cap k else none) = none
    rw [if_neg hc]

/-- The final `.+$` stage: the greedy dot-run consumes the whole
(newline-free, non-empty) remainder and `$` accepts at the end. -/
theorem run_plus_eol (text : List Char) (cap : Option (List Char))
    (hne : text ≠ []) (hnl : '\n' ∉ text) :
    reRun (RE.seq (plusC dotChar) RE.eol) text cap ktop = some cap := by
  cases text with
  | nil => exact absurd rfl hne
  | cons t0 tt =>
    have h0 : dotChar t0 = true :=
      dotChar_of_ne (fun he => hnl (he ▸ List.mem_cons_self t0 tt))
    have htt : ∀ x ∈ tt, dotChar x = true := fun x hx =>
      dotChar_of_ne (fun he => hnl (he ▸ List.mem_cons_of_mem t0 hx))
    rw [show (t0 :: tt) = (t0 :: tt) ++ [] from (List.append_nil _).symm]
    refine run_seq_plus dotChar RE.eol cap ktop t0 tt [] cap h0 htt ?_
    show (if ([] : List Char) = [] ∨ ([] : List Char) = ['\n']
        then ktop ([] : List Char) cap else none) = some cap
    rw [if_pos (Or.inl rfl)]
    rfl

/-- The capture arithmetic: the group around a stage that consumed
exactly `a` captures `a`. -/
theorem take_sub_length (a rest : List Char) :
    (a ++ rest).take ((a ++ rest).length - rest.length) = a := by
  have h : (a ++ rest).length - rest.length = a.length := by
    rw [List.length_append]
    omega
  rw [h]
  exact List.take_left a rest

/-- The host-domain group when the domain is the left alternative. -/
theorem run_grpalt_left (d1 d2 : List Char) (r : RE) (k)
    (cap : Option (List Char)) (rest : List Char) (v : Option (List Char))
    (hv : reRun r rest (some d1) k = some v) :
    reRun (RE.seq (RE.grp (RE.alt (litL d1) (litL d2))) r) (d1 ++ rest) cap k
      = some v := by
  show oElse
      (reRun (litL d1) (d1 ++ rest) cap
        (fun s' _ => reRun r s'
          (some ((d1 ++ rest).take ((d1 ++ rest).length - s'.length))) k))
      (reRun (litL d2) (d1 ++ rest) cap
        (fun s' _ => reRun r s'
          (some ((d1 ++ rest).take ((d1 ++ rest).length - s'.length))) k))
    = some v
  have h1 : reRun (litL d1) (d1 ++ rest) cap
      (fun s' _ => reRun r s'
        (some ((d1 ++ rest).take ((d1 ++ rest).length - s'.length))) k)
      = some v := by
    have hh := litL_run d1 (d1 ++ rest) cap
      (fun s' _ => reRun r s'
        (some ((d1 ++ rest).take ((d1 ++ rest).length - s'.length))) k)
    rw [dropPfx_append] at hh
    rw [hh]
    show reRun r rest
        (some ((d1 ++ rest).take ((d1 ++ rest).length - rest.length))) k
      = some v
    rw [take_sub_length]
    exact hv
  exact oElse_some_left _ _ v h1

/-- The host-domain group when the domain is the right alternative. -/
theorem run_grpalt_right (d1 d2 : List Char) (r : RE) (k)
    (cap : Option (List Char)) (rest : List Char) (v : Option (List Char))
    (hnone : dropPfx d1 (d2 ++ rest) = none)
    (hv : reRun r rest (some d2) k = some v) :
    reRun (RE.seq (RE.grp (RE.alt (litL d1) (litL d2))) r) (d2 ++ rest) cap k
      = some v := by
  show oElse
      (reRun (litL d1) (d2 ++ rest) cap
        (fun s' _ => reRun r s'
          (some ((d2 ++ rest).take ((d2 ++ rest).length - s'.length))) k))
      (reRun (litL d2) (d2 ++ rest) cap
        (fun s' _ => reRun r s'
          (some ((d2 ++ rest).take ((d2 ++ rest).length - s'.length))) k))
    = some v
  have h1 : reRun (litL d1) (d2 ++ rest) cap
      (fun s' _ => reRun r s'
        (some ((d2 ++ rest).take ((d2 ++ rest).length - s'.length))) k)
      = none := by
    have hh := litL_run d1 (d2 ++ rest) cap
      (fun s' _ => reRun r s'
        (some ((d2 ++ rest).take ((d2 ++ rest).length - s'.length))) k)
    rw [hnone] at hh
    exact hh
  rw [oElse_none_left _ _ h1]
  have hh := litL_run d2 (d2 ++ rest) cap
    (fun s' _ => reRun r s'
      (some ((d2 ++ rest).take ((d2 ++ rest).length - s'.length))) k)
  rw [dropPfx_append] at hh
  rw [hh]
  show reRun r rest
      (some ((d2 ++ rest).take ((d2 ++ rest).length - rest.length))) k
    = some v
  rw [take_sub_length]
  exact hv

theorem mkLineS_data (nick user host dom chan text : String) :
    (mkLineS nick user host dom chan text).data
      = lineL nick.data user.data host.data dom.data chan.data text.data := by
  simp only [mkLineS, lineL, String.data_append, List.append_assoc]
  rfl

/-! ## The PRIVMSG grammar accepts every well-formed line -/

/-- A boundary where the greedy class-scan stops on a non-class head and
the continuation succeeds. -/
theorem gScan_stop_cons (p : Char → Bool) (k) (cap : Option (List Char))
    (c : Char) (t : List Char) (v : Option (List Char)) (hc : p c = false)
    (hk : k (c :: t) cap = some v) : gScan p k cap (c :: t) = some v := by
  rw [gScan_nohead _ _ _ _ _ hc]
  exact hk

theorem msg_check_some (nick user host dom chan text : List Char)
    (hn : wordStrB nick = true) (hu : wordStrB user = true)
    (hh : wordStrB host = true) (hc : wordStrB chan = true)
    (hdom : dom = (".tmi.twitch.tv").data ∨ dom = (".testserver.local").data)
    (hte : text ≠ []) (htn : '\n' ∉ text) :
    reMatch messageRE (lineL nick user host dom chan text)
      = some (some dom) := by
  obtain ⟨hne_n, hw_n⟩ := (wordStrB_iff nick).mp hn
  obtain ⟨hne_u, hw_u⟩ := (wordStrB_iff user).mp hu
  obtain ⟨hne_h, hw_h⟩ := (wordStrB_iff host).mp hh
  obtain ⟨hne_c, hw_c⟩ := (wordStrB_iff chan).mp hc
  -- chan-and-after, parametric in the capture carried at that point
  have hA4 : ∀ cap : Option (List Char),
      reRun msgRE4 (chan ++ (' ' :: ':' :: text)) cap ktop = some cap := by
    intro cap
    obtain ⟨c0, ct, rfl⟩ := List.exists_cons_of_ne_nil hne_c
    refine run_seq_plus wordChar _ cap ktop c0 ct (' ' :: ':' :: text) cap
      (hw_c c0 (List.mem_cons_self _ _))
      (fun x hx => hw_c x (List.mem_cons_of_mem c0 hx)) ?_
    refine gScan_stop_cons wordChar _ cap ' ' (':' :: text) cap (by decide) ?_
    show reRun (RE.seq (plusC dotChar) RE.eol) text cap ktop = some cap
    exact run_plus_eol text cap hte htn
  -- the domain group stage: capture becomes `dom`
  have hA2 : reRun msgRE2
      (dom ++ ((" PRIVMSG #").data ++ (chan ++ (' ' :: ':' :: text))))
      none ktop = some (some dom) := by
    rcases hdom with rfl | rfl
    · refine run_grpalt_left _ _ msgRE3 ktop none _ (some _) ?_
      show reRun msgRE4 (chan ++ (' ' :: ':' :: text)) (some _) ktop = some _
      exact hA4 _
    · refine run_grpalt_right _ _ msgRE3 ktop none _ (some _) rfl ?_
      show reRun msgRE4 (chan ++ (' ' :: ':' :: text)) (some _) ktop = some _
      exact hA4 _
  -- host run
  have hAhost : reRun msgREhost
      (host ++ (dom ++ ((" PRIVMSG #").data ++ (chan ++ (' ' :: ':' :: text)))))
      none ktop = some (some dom) := by
    obtain ⟨h0, ht, rfl⟩ := List.exists_cons_of_ne_nil hne_h
    refine run_seq_plus wordChar _ none ktop h0 ht _ _
      (hw_h h0 (List.mem_cons_self _ _))
      (fun x hx => hw_h x (List.mem_cons_of_mem h0 hx)) ?_
    rcases hdom with rfl | rfl
    · exact gScan_stop_cons wordChar _ none '.' _ (some _) (by decide) hA2
    · exact gScan_stop_cons wordChar _ none '.' _ (some _) (by decide) hA2
  -- user run
  have hAuser : reRun msgREuser
      (user ++ ('@' :: (host ++ (dom ++ ((" PRIVMSG #").data
        ++ (chan ++ (' ' :: ':' :: text))))))) none ktop = some (some dom) := by
    obtain ⟨u0, ut, rfl⟩ := List.exists_cons_of_ne_nil hne_u
    refine run_seq_plus wordChar _ none ktop u0 ut _ _
      (hw_u u0 (List.mem_cons_self _ _))
      (fun x hx => hw_u x (List.mem_cons_of_mem u0 hx)) ?_
    refine gScan_stop_cons wordChar _ none '@' _ (some _) (by decide) ?_
    exact hAhost
  -- nick run and the leading colon
  obtain ⟨n0, nt, rfl⟩ := List.exists_cons_of_ne_nil hne_n
  show reRun msgREnick
      ((n0 :: nt) ++ ('!' :: (user ++ ('@' :: (host ++ (dom
        ++ ((" PRIVMSG #").data ++ (chan ++ (' ' :: ':' :: text)))))))))
      none ktop = some (some dom)
  refine run_seq_plus wordChar _ none ktop n0 nt _ _
    (hw_n n0 (List.mem_cons_self _ _))
    (fun x hx => hw_n x (List.mem_cons_of_mem n0 hx)) ?_
  refine gScan_stop_cons wordChar _ none '!' _ (some _) (by decide) ?_
  exact hAuser

/-! ## The username extraction pattern captures the nick -/

theorem username_extract (nick rest : List Char)
    (hne : nick ≠ []) (hw : ∀ c ∈ nick, wordChar c = true) :
    reMatch usernameRE (':' :: (nick ++ ('!' :: rest)))
      = some (some nick) := by
  obtain ⟨n0, nt, rfl⟩ := List.exists_cons_of_ne_nil hne
  show (if wordChar n0 = true then
      gScan wordChar
        (fun s' _ => reRun (RE.ch '!') s'
          (some (((n0 :: nt) ++ ('!' :: rest)).take
            (((n0 :: nt) ++ ('!' :: rest)).length - s'.length))) ktop)
        none (nt ++ ('!' :: rest))
      else none) = some (some (n0 :: nt))
  rw [hw n0 (List.mem_cons_self _ _), if_pos rfl]
  refine gScan_prepend wordChar _ none nt ('!' :: rest) (some (n0 :: nt))
    (fun x hx => hw x (List.mem_cons_of_mem n0 hx)) ?_
  refine gScan_stop_cons wordChar _ none '!' rest (some (n0 :: nt))
    (by decide) ?_
  show some (some (((n0 :: nt) ++ ('!' :: rest)).take
      (((n0 :: nt) ++ ('!' :: rest)).length - ('!' :: rest).length)))
    = some (some (n0 :: nt))
  rw [take_sub_length]

/-! ## The channel extraction pattern -/

theorem dropPfx_cons_ne (m : List Char) (cM c : Char) (t : List Char)
    (h : c ≠ cM) : dropPfx (cM :: m) (c :: t) = none := by
  show (if c = cM then dropPfx m t else none) = none
  rw [if_neg h]

theorem run_lit_none (m w : List Char) (cap : Option (List Char)) (k)
    (h : dropPfx m w = none) : reRun (litL m) w cap k = none := by
  rw [litL_run, h]

/-- In the tail `PRIVMSG #<chan> :<text>` of a well-formed line, no
suffix starts with the literal `" PRIVMSG "`, provided the text itself
does not contain `" PRIVMSG "`. -/
theorem no_privmsg_sfx (chan text : List Char)
    (hcw : ∀ c ∈ chan, wordChar c = true)
    (hseg : segInB ((" PRIVMSG ").data) text = false) :
    ∀ w, sfxOf w (("PRIVMSG ").data ++ ('#' :: (chan ++ (' ' :: ':' :: text))))
      → dropPfx ((" PRIVMSG ").data) w = none := by
  intro w hw
  rcases sfxOf_append_split hw with hw1 | ⟨x', hx', hne, rfl⟩
  · -- suffixes of `#<chan> :<text>`
    rcases sfxOf_cons_inv hw1 with rfl | hw2
    · exact dropPfx_cons_ne _ _ _ _ (by decide)
    · rcases sfxOf_append_split hw2 with hw3 | ⟨c', hc', hne', rfl⟩
      · -- suffixes of ` :<text>`
        rcases sfxOf_cons_inv hw3 with rfl | hw4
        · rfl
        · rcases sfxOf_cons_inv hw4 with rfl | hw5
          · exact dropPfx_cons_ne _ _ _ _ (by decide)
          · exact dropPfx_none_of_not_seg hseg hw5
      · -- a non-empty suffix of the channel word, then ` :<text>`
        obtain ⟨cc, ct, rfl⟩ := List.exists_cons_of_ne_nil hne'
        exact dropPfx_cons_ne _ _ _ _
          (wordChar_spec (hcw cc (sfxOf_head_mem hc' rfl))).1
  · -- a non-empty suffix of `PRIVMSG `, then the rest
    rcases sfxOf_cons_inv hx' with rfl | h1
    · exact dropPfx_cons_ne _ _ _ _ (by decide)
    rcases sfxOf_cons_inv h1 with rfl | h2
    · exact dropPfx_cons_ne _ _ _ _ (by decide)
    rcases sfxOf_cons_inv h2 with rfl | h3
    · exact dropPfx_cons_ne _ _ _ _ (by decide)
    rcases sfxOf_cons_inv h3 with rfl | h4
    · exact dropPfx_cons_ne _ _ _ _ (by decide)
    rcases sfxOf_cons_inv h4 with rfl | h5
    · exact dropPfx_cons_ne _ _ _ _ (by decide)
    rcases sfxOf_cons_inv h5 with rfl | h6
    · exact dropPfx_cons_ne _ _ _ _ (by decide)
    rcases sfxOf_cons_inv h6 with rfl | h7
    · exact dropPfx_cons_ne _ _ _ _ (by decide)
    rcases sfxOf_cons_inv h7 with rfl | h8
    · rfl
    · exact absurd (sfxOf_nil_inv h8) hne

/-- The lazy channel group `(.*?) :` captures exactly `#<chan>`: the
shortest extension reaching a literal `" :"`. -/
theorem chan_group_extract (chan text : List Char) (cap : Option (List Char))
    (hcw : ∀ c ∈ chan, wordChar c = true) :
    reRun chanRE3 (('#' :: chan) ++ (' ' :: ':' :: text)) cap ktop
      = some (some ('#' :: chan)) := by
  show lScan dotChar
      (fun s' _ => reRun (litL ((" :").data)) s'
        (some ((('#' :: chan) ++ (' ' :: ':' :: text)).take
          ((('#' :: chan) ++ (' ' :: ':' :: text)).length - s'.length))) ktop)
      cap (('#' :: chan) ++ (' ' :: ':' :: text))
      = some (some ('#' :: chan))
  rw [lScan_append dotChar _ cap ('#' :: chan) (' ' :: ':' :: text)
    (by
      intro c hcm
      rcases List.mem_cons.mp hcm with rfl | hcm
      · decide
      · exact dotChar_of_word (hcw c hcm))
    (by
      intro a' hne ha'
      obtain ⟨c0, t0, rfl⟩ := List.exists_cons_of_ne_nil hne
      have hc0 : c0 = '#' ∨ c0 ∈ chan :=
        List.mem_cons.mp (sfxOf_head_mem ha' rfl)
      have hne' : c0 ≠ ' ' := by
        rcases hc0 with rfl | h
        · decide
        · exact (wordChar_spec (hcw _ h)).1
      exact run_lit_none _ _ _ _ (dropPfx_cons_ne _ _ _ _ hne'))]
  refine lScan_hit dotChar _ cap (' ' :: ':' :: text) (some ('#' :: chan)) ?_
  show some (some ((('#' :: chan) ++ (' ' :: ':' :: text)).take
      ((('#' :: chan) ++ (' ' :: ':' :: text)).length
        - (' ' :: ':' :: text).length)))
    = some (some ('#' :: chan))
  rw [take_sub_length]

/-- If a regex fails on every suffix of `l`, prepending a greedy
class-plus still fails on every suffix of `l`: the scan's continuation
is invoked only at (shorter) suffixes of `l`. -/
theorem run_plus_none_of (p : Char → Bool) (r : RE) (l : List Char)
    (hr : ∀ w, sfxOf w l → reRun r w none ktop = none) :
    ∀ w, sfxOf w l → reRun (RE.seq (plusC p) r) w none ktop = none := by
  intro w hw
  cases w with
  | nil => rfl
  | cons c t =>
    show (if p c = true then
        gScan p (fun s' cap' => reRun r s' cap' ktop) none t else none) = none
    by_cases hc : p c = true
    · rw [hc, if_pos rfl]
      refine gScan_none p _ none t ?_
      intro w' hw'
      exact hr w' (sfxOf_trans hw' (sfxOf_trans (sfxOf_tail c t) hw))
    · rw [Bool.not_eq_true] at hc
      rw [hc]
      rfl

/-- If a regex fails on every suffix of `l`, prepending a literal
character still fails on every suffix of `l`. -/
theorem run_ch_none_of (c0 : Char) (r : RE) (l : List Char)
    (hr : ∀ w, sfxOf w l → reRun r w none ktop = none) :
    ∀ w, sfxOf w l → reRun (RE.seq (RE.ch c0) r) w none ktop = none := by
  intro w hw
  cases w with
  | nil => rfl
  | cons c t =>
    show (if c = c0 then reRun r t none ktop else none) = none
    by_cases hc : c = c0
    · rw [if_pos hc]
      exact hr t (sfxOf_trans (sfxOf_tail c t) hw)
    · rw [if_neg hc]

/-- The suffix regex `\![a-zA-Z0-9_]+@[a-zA-Z0-9_]+.+ PRIVMSG (.*?) :`
of the channel pattern fails on every suffix of a text that does not
contain the substring `" PRIVMSG "`: each backtrack branch would need a
later literal `" PRIVMSG "` inside the text.  Hence a `'!'` inside the
text never yields a spurious match. -/
theorem chanREexcl_none_on_text (text : List Char)
    (hseg : segInB ((" PRIVMSG ").data) text = false) :
    ∀ w, sfxOf w text → reRun chanREexcl w none ktop = none := by
  have h2 : ∀ w, sfxOf w text → reRun chanRE2 w none ktop = none :=
    fun w hw => run_seq_lit_none ((" PRIVMSG ").data) chanRE3 ktop none w
      (dropPfx_none_of_not_seg hseg hw)
  have hdot2 : ∀ w, sfxOf w text → reRun chanREdot2 w none ktop = none :=
    run_plus_none_of dotChar chanRE2 text h2
  have hhost : ∀ w, sfxOf w text → reRun chanREhost w none ktop = none :=
    run_plus_none_of wordChar chanREdot2 text hdot2
  have hat : ∀ w, sfxOf w text → reRun chanREat w none ktop = none :=
    run_ch_none_of '@' chanREhost text hhost
  have huser : ∀ w, sfxOf w text → reRun chanREuser w none ktop = none :=
    run_plus_none_of wordChar chanREat text hat
  exact run_ch_none_of '!' chanREuser text huser

/-- In the part of a well-formed line after the real `'!'`, the only
`'!'`-headed suffixes are suffixes of the text: the user, host, domain,
channel and the fixed separators contain no `'!'`. -/
theorem sfx_tail0_excl (user host dom chan text : List Char)
    (hu : ∀ c ∈ user, wordChar c = true) (hh : ∀ c ∈ host, wordChar c = true)
    (hcw : ∀ c ∈ chan, wordChar c = true)
    (hdom : dom = (".tmi.twitch.tv").data ∨ dom = (".testserver.local").data) :
    ∀ w, sfxOf w (user ++ ('@' :: (host ++ (dom ++ ((" PRIVMSG #").data
      ++ (chan ++ (' ' :: ':' :: text))))))) →
      ∀ t, w = '!' :: t → sfxOf w text := by
  intro w hw t hwc
  rcases sfxOf_append_split hw with hw1 | ⟨x1, hx1, hne1, rfl⟩
  · rcases sfxOf_cons_inv hw1 with rfl | hw2
    · exact absurd (List.cons.inj hwc).1 (by decide)
    · rcases sfxOf_append_split hw2 with hw3 | ⟨x2, hx2, hne2, rfl⟩
      · rcases sfxOf_append_split hw3 with hw4 | ⟨x3, hx3, hne3, rfl⟩
        · rcases sfxOf_append_split hw4 with hw5 | ⟨x4, hx4, hne4, rfl⟩
          · rcases sfxOf_append_split hw5 with hw6 | ⟨x5, hx5, hne5, rfl⟩
            · rcases sfxOf_cons_inv hw6 with rfl | hw7
              · exact absurd (List.cons.inj hwc).1 (by decide)
              · rcases sfxOf_cons_inv hw7 with rfl | hw8
                · exact absurd (List.cons.inj hwc).1 (by decide)
                · exact hw8
            · obtain ⟨c0, t0, rfl⟩ := List.exists_cons_of_ne_nil hne5
              have hc0 : c0 = '!' := (List.cons.inj hwc).1
              exact absurd hc0
                (wordChar_spec (hcw c0 (sfxOf_head_mem hx5 rfl))).2.1
          · obtain ⟨c0, t0, rfl⟩ := List.exists_cons_of_ne_nil hne4
            have hc0 : c0 = '!' := (List.cons.inj hwc).1
            exact absurd hc0
              ((by decide : ∀ x ∈ ((" PRIVMSG #").data), x ≠ '!') c0
                (sfxOf_head_mem hx4 rfl))
        · obtain ⟨c0, t0, rfl⟩ := List.exists_cons_of_ne_nil hne3
          have hc0 : c0 = '!' := (List.cons.inj hwc).1
          have hmem : c0 ∈ dom := sfxOf_head_mem hx3 rfl
          rcases hdom with rfl | rfl
          · exact absurd hc0
              ((by decide : ∀ x ∈ ((".tmi.twitch.tv").data), x ≠ '!') c0 hmem)
          · exact absurd hc0
              ((by decide : ∀ x ∈ ((".testserver.local").data), x ≠ '!') c0
                hmem)
      · obtain ⟨c0, t0, rfl⟩ := List.exists_cons_of_ne_nil hne2
        have hc0 : c0 = '!' := (List.cons.inj hwc).1
        exact absurd hc0
          (wordChar_spec (hh c0 (sfxOf_head_mem hx2 rfl))).2.1
  · obtain ⟨c0, t0, rfl⟩ := List.exists_cons_of_ne_nil hne1
    have hc0 : c0 = '!' := (List.cons.inj hwc).1
    exact absurd hc0 (wordChar_spec (hu c0 (sfxOf_head_mem hx1 rfl))).2.1

theorem channel_extract (nick user host dom chan text : List Char)
    (hn : wordStrB nick = true) (hu : wordStrB user = true)
    (hh : wordStrB host = true) (hc : wordStrB chan = true)
    (hdom : dom = (".tmi.twitch.tv").data ∨ dom = (".testserver.local").data)
    (hseg : segInB ((" PRIVMSG ").data) text = false) :
    reMatch channelRE (lineL nick user host dom chan text)
      = some (some ('#' :: chan)) := by
  obtain ⟨hne_n, hw_n⟩ := (wordStrB_iff nick).mp hn
  obtain ⟨hne_u, hw_u⟩ := (wordStrB_iff user).mp hu
  obtain ⟨hne_h, hw_h⟩ := (wordStrB_iff host).mp hh
  obtain ⟨hne_c, hw_c⟩ := (wordStrB_iff chan).mp hc
  -- stage: `.+ PRIVMSG (.*?) :` on `<dom> PRIVMSG #<chan> :<text>`
  have hstop : gScan dotChar (fun s' cap' => reRun chanRE2 s' cap' ktop) none
      (' ' :: (("PRIVMSG ").data ++ ('#' :: (chan ++ (' ' :: ':' :: text)))))
      = some (some ('#' :: chan)) := by
    refine gScan_cons_of_none dotChar _ none ' ' _ (some ('#' :: chan))
      (by decide) ?_ ?_
    · refine gScan_none dotChar _ none _ ?_
      intro w hw
      exact run_seq_lit_none _ chanRE3 ktop none w
        (no_privmsg_sfx chan text hw_c hseg w hw)
    · show reRun chanRE3 (('#' :: chan) ++ (' ' :: ':' :: text)) none ktop
        = some (some ('#' :: chan))
      exact chan_group_extract chan text none hw_c
  have hC2 : reRun chanREdot2
      (dom ++ ((" PRIVMSG #").data ++ (chan ++ (' ' :: ':' :: text))))
      none ktop = some (some ('#' :: chan)) := by
    rcases hdom with rfl | rfl
    · show reRun chanREdot2
          (('.' :: ("tmi.twitch.tv").data)
            ++ ((" PRIVMSG #").data ++ (chan ++ (' ' :: ':' :: text))))
          none ktop = some (some ('#' :: chan))
      refine run_seq_plus dotChar chanRE2 none ktop '.' (("tmi.twitch.tv").data)
        ((" PRIVMSG #").data ++ (chan ++ (' ' :: ':' :: text)))
        (some ('#' :: chan)) (by decide) (by decide) ?_
      exact hstop
    · show reRun chanREdot2
          (('.' :: ("testserver.local").data)
            ++ ((" PRIVMSG #").data ++ (chan ++ (' ' :: ':' :: text))))
          none ktop = some (some ('#' :: chan))
      refine run_seq_plus dotChar chanRE2 none ktop '.'
        (("testserver.local").data)
        ((" PRIVMSG #").data ++ (chan ++ (' ' :: ':' :: text)))
        (some ('#' :: chan)) (by decide) (by decide) ?_
      exact hstop
  have hChost : reRun chanREhost
      (host ++ (dom ++ ((" PRIVMSG #").data ++ (chan ++ (' ' :: ':' :: text)))))
      none ktop = some (some ('#' :: chan)) := by
    obtain ⟨h0, ht0, rfl⟩ := List.exists_cons_of_ne_nil hne_h
    refine run_seq_plus wordChar _ none ktop h0 ht0 _ _
      (hw_h h0 (List.mem_cons_self _ _))
      (fun x hx => hw_h x (List.mem_cons_of_mem h0 hx)) ?_
    rcases hdom with rfl | rfl
    · exact gScan_stop_cons wordChar _ none '.' _ (some _) (by decide) hC2
    · exact gScan_stop_cons wordChar _ none '.' _ (some _) (by decide) hC2
  have hCuser : reRun chanREuser
      (user ++ ('@' :: (host ++ (dom ++ ((" PRIVMSG #").data
        ++ (chan ++ (' ' :: ':' :: text)))))))
      none ktop = some (some ('#' :: chan)) := by
    obtain ⟨u0, ut, rfl⟩ := List.exists_cons_of_ne_nil hne_u
    refine run_seq_plus wordChar _ none ktop u0 ut _ _
      (hw_u u0 (List.mem_cons_self _ _))
      (fun x hx => hw_u x (List.mem_cons_of_mem u0 hx)) ?_
    refine gScan_stop_cons wordChar _ none '@' _ (some _) (by decide) ?_
    exact hChost
  obtain ⟨n0, nt, rfl⟩ := List.exists_cons_of_ne_nil hne_n
  show reRun chanREdot1
      ((n0 :: nt) ++ ('!' :: (user ++ ('@' :: (host ++ (dom
        ++ ((" PRIVMSG #").data ++ (chan ++ (' ' :: ':' :: text)))))))))
      none ktop = some (some ('#' :: chan))
  refine run_seq_plus dotChar _ none ktop n0 nt _ _
    (dotChar_of_word (hw_n n0 (List.mem_cons_self _ _)))
    (fun x hx => dotChar_of_word (hw_n x (List.mem_cons_of_mem n0 hx))) ?_
  refine gScan_cons_of_none dotChar _ none '!' _ (some ('#' :: chan))
    (by decide) ?_ ?_
  · refine gScan_none dotChar _ none _ ?_
    intro w hw
    cases w with
    | nil => rfl
    | cons c t =>
      by_cases hcx : c = '!'
      · subst hcx
        exact chanREexcl_none_on_text text hseg ('!' :: t)
          (sfx_tail0_excl user host dom chan text hw_u hw_h hw_c hdom
            ('!' :: t) hw t rfl)
      · exact run_seq_ch_none '!' chanREuser ktop none (c :: t)
          (Or.inr ⟨c, t, rfl, hcx⟩)
  · exact hCuser

/-! ## The text extraction pattern -/

theorem reSearch_append (r : RE) : ∀ (pre mid : List Char),
    (∀ a, a ≠ [] → sfxOf a pre → reMatch r (a ++ mid) = none) →
    reSearch r (pre ++ mid) = reSearch r mid := by
  intro pre
  induction pre with
  | nil => intro mid _; rfl
  | cons c p ih =>
    intro mid h
    show oElse (reMatch r ((c :: p) ++ mid)) (reSearch r (p ++ mid))
      = reSearch r mid
    rw [h (c :: p) (by simp) (sfxOf_refl _)]
    show reSearch r (p ++ mid) = reSearch r mid
    exact ih mid (fun a hne ha => h a hne (sfxOf_cons c ha))

theorem reSearch_hit (r : RE) (mid : List Char) (v : Option (List Char))
    (h : reMatch r mid = some v) : reSearch r mid = some v := by
  cases mid with
  | nil => exact h
  | cons c t =>
    show oElse (reMatch r (c :: t)) (reSearch r t) = some v
    rw [h]
    rfl

/-- The literal `PRIVMSG #` cannot match at any position strictly before
the real one: its `'#'` would have to sit inside hash-free territory. -/
theorem dropPfx_hash9 (a mid' : List Char) (ha : a ≠ [])
    (hA : ∀ c ∈ a, c ≠ '#')
    (hm : ∀ j, j < 8 → mid'[j]? ≠ some '#') :
    dropPfx (("PRIVMSG #").data) (a ++ mid') = none := by
  cases hd : dropPfx (("PRIVMSG #").data) (a ++ mid') with
  | none => rfl
  | some r =>
    exfalso
    have he : a ++ mid' = ("PRIVMSG #").data ++ r :=
      (dropPfx_eq_some _ _ _).mp hd
    have h8 : (a ++ mid')[8]? = some '#' := by
      rw [he, List.getElem?_append_left
        (by decide : (8 : Nat) < (("PRIVMSG #").data).length)]
      decide
    rcases Nat.lt_or_ge 8 a.length with hlt | hge
    · rw [List.getElem?_append_left hlt] at h8
      exact hA '#' (List.getElem?_mem h8) rfl
    · rw [List.getElem?_append_right hge] at h8
      have hj : 8 - a.length < 8 := by
        have : 0 < a.length := List.length_pos.mpr ha
        omega
      exact hm (8 - a.length) hj h8

/-- A greedy class-star over a wholly matching remainder consumes
everything and hands `[]` to the continuation. -/
theorem gScan_all (p : Char → Bool) (k) (cap : Option (List Char))
    (v : Option (List Char)) : ∀ a, (∀ c ∈ a, p c = true) →
      k [] cap = some v → gScan p k cap a = some v := by
  intro a
  induction a with
  | nil => intro _ h; exact h
  | cons c t ih =>
    intro hall h
    show (if p c then oElse (gScan p k cap t) (k (c :: t) cap)
          else k (c :: t) cap) = some v
    rw [hall c (List.mem_cons_self _ _), if_pos rfl,
      ih (fun x hx => hall x (List.mem_cons_of_mem c hx)) h]
    rfl

/-- The final `(.+)` group of the text pattern captures the whole
newline-free text. -/
theorem text_group_extract (text : List Char) (cap : Option (List Char))
    (hte : text ≠ []) (htn : '\n' ∉ text) :
    reRun textRE3 text cap ktop = some (some text) := by
  obtain ⟨t0, tt, rfl⟩ := List.exists_cons_of_ne_nil hte
  show (if dotChar t0 = true then
      gScan dotChar
        (fun s' _ => ktop s'
          (some ((t0 :: tt).take ((t0 :: tt).length - s'.length))))
        cap tt
      else none) = some (some (t0 :: tt))
  rw [dotChar_of_ne (fun he => htn (he ▸ List.mem_cons_self t0 tt)),
    if_pos rfl]
  refine gScan_all dotChar _ cap (some (t0 :: tt)) tt
    (fun x hx => dotChar_of_ne
      (fun he => htn (he ▸ List.mem_cons_of_mem t0 hx))) ?_
  show some (some ((t0 :: tt).take
      ((t0 :: tt).length - ([] : List Char).length))) = some (some (t0 :: tt))
  simp

/-- No character of the part of a well-formed line before `PRIVMSG #` is
a `'#'`. -/
theorem pre_no_hash (nick user host dom : List Char)
    (hn : ∀ c ∈ nick, wordChar c = true) (hu : ∀ c ∈ user, wordChar c = true)
    (hh : ∀ c ∈ host, wordChar c = true)
    (hdom : dom = (".tmi.twitch.tv").data ∨ dom = (".testserver.local").data) :
    ∀ c ∈ (':' :: (nick ++ ('!' :: (user ++ ('@' :: (host
      ++ (dom ++ ([' '] : List Char)))))))), c ≠ '#' := by
  intro c hcm
  rcases List.mem_cons.mp hcm with rfl | hcm1
  · decide
  rcases List.mem_append.mp hcm1 with hc | hcm2
  · exact (wordChar_spec (hn c hc)).2.2.2.1
  rcases List.mem_cons.mp hcm2 with rfl | hcm3
  · decide
  rcases List.mem_append.mp hcm3 with hc | hcm4
  · exact (wordChar_spec (hu c hc)).2.2.2.1
  rcases List.mem_cons.mp hcm4 with rfl | hcm5
  · decide
  rcases List.mem_append.mp hcm5 with hc | hcm6
  · exact (wordChar_spec (hh c hc)).2.2.2.1
  rcases List.mem_append.mp hcm6 with hc | hcm7
  · rcases hdom with rfl | rfl
    · exact (by decide : ∀ x ∈ ((".tmi.twitch.tv").data), x ≠ '#') c hc
    · exact (by decide : ∀ x ∈ ((".testserver.local").data), x ≠ '#') c hc
  · rcases List.mem_singleton.mp hcm7 with rfl
    decide

theorem text_extract (nick user host dom chan text : List Char)
    (hn : wordStrB nick = true) (hu : wordStrB user = true)
    (hh : wordStrB host = true) (hc : wordStrB chan = true)
    (hdom : dom = (".tmi.twitch.tv").data ∨ dom = (".testserver.local").data)
    (hte : text ≠ []) (htn : '\n' ∉ text) :
    reSearch textRE (lineL nick user host dom chan text)
      = some (some text) := by
  obtain ⟨hne_n, hw_n⟩ := (wordStrB_iff nick).mp hn
  obtain ⟨hne_u, hw_u⟩ := (wordStrB_iff user).mp hu
  obtain ⟨hne_h, hw_h⟩ := (wordStrB_iff host).mp hh
  obtain ⟨hne_c, hw_c⟩ := (wordStrB_iff chan).mp hc
  have hline : lineL nick user host dom chan text
      = (':' :: (nick ++ ('!' :: (user ++ ('@' :: (host
          ++ (dom ++ ([' '] : List Char))))))))
        ++ (("PRIVMSG #").data ++ (chan ++ (' ' :: ':' :: text))) := by
    simp only [lineL, List.cons_append, List.append_assoc]
    rfl
  rw [hline]
  rw [reSearch_append textRE _ _ ?hfail]
  case hfail =>
    intro a hne ha
    refine run_seq_lit_none _ textRE1 ktop none _ ?_
    refine dropPfx_hash9 a _ hne ?_ ?_
    · exact fun c hcmem =>
        pre_no_hash nick user host dom hw_n hw_u hw_h hdom c
          (sfxOf_subset ha c hcmem)
    · intro j hj
      rw [List.getElem?_append_left
        (by
          have h9 : (("PRIVMSG #").data).length = 9 := rfl
          omega)]
      interval_cases j <;> decide
  refine reSearch_hit textRE _ (some text) ?_
  show reRun textRE1 (chan ++ (' ' :: ':' :: text)) none ktop
    = some (some text)
  obtain ⟨c0, ct, rfl⟩ := List.exists_cons_of_ne_nil hne_c
  refine run_seq_plus wordChar _ none ktop c0 ct _ _
    (hw_c c0 (List.mem_cons_self _ _))
    (fun x hx => hw_c x (List.mem_cons_of_mem c0 hx)) ?_
  refine gScan_stop_cons wordChar _ none ' ' _ (some text) (by decide) ?_
  show reRun textRE3 text none ktop = some (some text)
  exact text_group_extract text none hte htn

/-! ## C1: what `_parse_message` returns on grammar lines -/

/-- A line starting with `':'` can never match the ping pattern. -/
theorem ping_false_lineL (nick user host dom chan text : List Char) :
    (reMatch pingRE (lineL nick user host dom chan text)).isSome = false := rfl

/-- C1 counterexample.  First input: a PRIVMSG line whose text contains a
colon — the code's extracted text is `"x:y"`, the full grammar capture,
not the remainder `"y"` after the final `':'` as the claim states.
Second input: a PRIVMSG line whose text embeds `" PRIVMSG y :"` — the
channel extracted by the code is `"y"`, not the grammar's channel capture
`"#d"`.  (Values confirmed against CPython's `re` on the source
patterns.) -/
theorem C1_counterexample :
    (check_has_message ":a!b@c.tmi.twitch.tv PRIVMSG #d :x:y" = true ∧
     parse_message ":a!b@c.tmi.twitch.tv PRIVMSG #d :x:y"
       = Except.ok (some ⟨"#d", "a", "x:y"⟩) ∧
     afterLastColon ":a!b@c.tmi.twitch.tv PRIVMSG #d :x:y" = "y" ∧
     ("x:y" : String) ≠ "y") ∧
    (check_has_message ":a!b@c.tmi.twitch.tv PRIVMSG #d :x PRIVMSG y :z"
       = true ∧
     parse_message ":a!b@c.tmi.twitch.tv PRIVMSG #d :x PRIVMSG y :z"
       = Except.ok (some ⟨"y", "a", "x PRIVMSG y :z"⟩) ∧
     ("y" : String) ≠ "#d") := by
  exact ⟨⟨by decide, by decide, by decide, by decide⟩,
    ⟨by decide, by decide, by decide⟩⟩

/-- C1 (amended): for every line assembled from the PRIVMSG grammar of
`_check_has_message` — `:<nick>!<user>@<host><dom> PRIVMSG #<chan> :<text>`
with word-character fields and a domain of `.tmi.twitch.tv` or
`.testserver.local` — whose text is non-empty, newline-free, and does
not contain the substring `" PRIVMSG "`, the check accepts the line and
`_parse_message` returns the record with channel `#<chan>` (including
the leading `'#'`), username `<nick>`, and text `<text>`, the remainder
after the first `" :"` following the channel (not after the final
`':'`).  And every line matching neither the PRIVMSG grammar nor the
ping pattern parses to no event, never an error. -/
theorem C1_parse_grammar :
    (∀ nick user host dom chan text : String,
      wordStrB nick.data = true → wordStrB user.data = true →
      wordStrB host.data = true → wordStrB chan.data = true →
      (dom = ".tmi.twitch.tv" ∨ dom = ".testserver.local") →
      text ≠ "" → '\n' ∉ text.data →
      segInB ((" PRIVMSG ").data) text.data = false →
      check_has_message (mkLineS nick user host dom chan text) = true ∧
      parse_message (mkLineS nick user host dom chan text)
        = Except.ok (some ⟨"#" ++ chan, nick, text⟩)) ∧
    (∀ line : String, check_has_ping line = false →
      check_has_message line = false →
      parse_message line = Except.ok none) := by
  constructor
  · intro nick user host dom chan text hn hu hh hc hdomS hteS htn hseg
    have hdata := mkLineS_data nick user host dom chan text
    have hdom : dom.data = (".tmi.twitch.tv").data
        ∨ dom.data = (".testserver.local").data := by
      rcases hdomS with rfl | rfl
      · exact Or.inl rfl
      · exact Or.inr rfl
    have hte : text.data ≠ [] := by
      intro hd
      exact hteS (String.ext (by rw [hd]))
    obtain ⟨hne_n, hw_n⟩ := (wordStrB_iff nick.data).mp hn
    have hping : check_has_ping (mkLineS nick user host dom chan text)
        = false := by
      rw [check_has_ping, hdata]
      exact ping_false_lineL _ _ _ _ _ _
    have hmsg : check_has_message (mkLineS nick user host dom chan text)
        = true := by
      rw [check_has_message, hdata,
        msg_check_some nick.data user.data host.data dom.data chan.data
          text.data hn hu hh hc hdom hte htn]
      rfl
    have hchan : matchCap channelRE (mkLineS nick user host dom chan text)
        = some ("#" ++ chan) := by
      rw [matchCap, hdata,
        channel_extract nick.data user.data host.data dom.data chan.data
          text.data hn hu hh hc hdom hseg]
      rfl
    have huser : matchCap usernameRE (mkLineS nick user host dom chan text)
        = some nick := by
      rw [matchCap, hdata]
      rw [show reMatch usernameRE
            (lineL nick.data user.data host.data dom.data chan.data text.data)
          = some (some nick.data) from
        username_extract nick.data
          (user.data ++ ('@' :: (host.data ++ (dom.data
            ++ ((" PRIVMSG #").data ++ (chan.data
              ++ ((" :").data ++ text.data)))))))
          hne_n hw_n]
    have htext : findCap textRE (mkLineS nick user host dom chan text)
        = some text := by
      rw [findCap, hdata,
        text_extract nick.data user.data host.data dom.data chan.data
          text.data hn hu hh hc hdom hte htn]
    refine ⟨hmsg, ?_⟩
    unfold parse_message
    rw [hping, if_neg Bool.false_ne_true, hmsg, if_pos rfl, hchan, huser,
      htext]
  · intro line h1 h2
    unfold parse_message
    rw [h1, if_neg Bool.false_ne_true, h2, if_neg Bool.false_ne_true]

/-- C1 witness: a concrete well-formed line — with a text containing a
`'!'` and a `':'` — parses to the expected record, and a concrete
non-matching line parses to no event. -/
theorem C1_witness :
    parse_message
        (mkLineS "alice" "bob" "host0" ".tmi.twitch.tv" "chan"
          "hello! now :go")
      = Except.ok (some ⟨"#chan", "alice", "hello! now :go"⟩) ∧
    parse_message "JOIN #chan" = Except.ok none :=
  ⟨(C1_parse_grammar.1 "alice" "bob" "host0" ".tmi.twitch.tv" "chan"
      "hello! now :go" (by decide) (by decide) (by decide) (by decide)
      (Or.inl rfl) (by decide) (by decide) (by decide)).2,
   C1_parse_grammar.2 "JOIN #chan" (by decide) (by decide)⟩

end TwitchChat
